import Mathlib

/-!
# fcopy (t/mmap.c): memory-mapped file copy

A shallow embedding of `copy_file` and `main` from `t/mmap.c`.

The C code only issues system calls, so the embedding has two layers:

* a model of the part of the POSIX interface the program uses (`open`, `fstat`,
  `mmap`, `write`, `close`, `munmap`, `puts`) over an explicit `World` state: an inode
  table, a name space, the descriptor table of the process, its memory mappings and the
  trace of calls issued so far;
* `copy_file` and `main`, translated statement by statement from the C text.

Outcomes the modelled state does not determine (a call failing with `EACCES`, `EMFILE`,
`EIO`, `ENOMEM`, the address `mmap` picks, how many bytes one `write` transfers) are
inputs of the run, collected in `Kernel`.  The automatic variables `fout`, `bi` and `st`
have no initialiser in the C text; their indeterminate initial values are inputs as
well, collected in `Locals`.
-/

namespace Fcopy

/-! ## Constants of the platform headers (Linux values) -/

abbrev Byte := Fin 256

def O_RDONLY : Nat := 0
def O_WRONLY : Nat := 1
def O_RDWR : Nat := 2
def O_ACCMODE : Nat := 3
def O_CREAT : Nat := 0o100
def O_TRUNC : Nat := 0o1000
def PROT_READ : Nat := 1
def MAP_PRIVATE : Nat := 2
def S_IFREG : Nat := 0o100000
def PAGE_SIZE : Nat := 4096

/-- The value `(void*)-1` that `mmap` returns on failure. -/
def MAP_FAILED : Int := -1

/-- Conversion of a signed 64-bit value (`off_t`) to `size_t`. -/
def toSizeT (x : Int) : Nat := (x % 2 ^ 64).toNat

/-! ## State of the modelled system -/

/-- A regular file: its bytes and its `st_mode` (file type and permission bits). -/
structure Inode where
  data : List Byte
  mode : Nat
deriving DecidableEq

/-- An open file description. -/
structure OpenFile where
  ino : Nat
  offset : Nat
  rd : Bool
  wr : Bool
deriving DecidableEq

/-- A file mapping in the address space of the process. -/
structure Mapping where
  addr : Nat
  len : Nat
  ino : Nat
  off : Nat
deriving DecidableEq

/-- The two fields of `struct stat` the program reads. -/
structure Stat where
  st_mode : Nat
  st_size : Int
deriving DecidableEq

/-- A call made by the program, with its arguments. -/
inductive Call where
  | open (path : Option String) (flags : Nat) (mode : Nat)
  | fstat (fd : Int)
  | mmap (addr : Int) (len : Nat) (prot : Nat) (flags : Nat) (fd : Int) (off : Int)
  | write (fd : Int) (buf : Int) (count : Nat)
  | close (fd : Int)
  | munmap (addr : Int) (len : Nat)
  | puts (s : String)
deriving DecidableEq

/-- A call together with the value it returned. -/
structure Event where
  call : Call
  ret : Int
deriving DecidableEq

/-- The filesystem and process state.  `inodes` is indexed by inode number, `names`
resolves a path to an inode number (several paths may name one inode), `fds` is
indexed by descriptor number.  `mmapZeroLen` records whether the platform accepts a
mapping request of length zero (POSIX and Linux: it does not, `EINVAL`). -/
structure World where
  inodes : List Inode
  names : List (String × Nat)
  fds : List (Option OpenFile)
  maps : List Mapping
  umask : Nat
  mmapZeroLen : Bool
deriving DecidableEq

/-- The state of a run: the world and the calls issued so far, oldest first. -/
structure Sys where
  world : World
  trace : List Event
deriving DecidableEq

/-- Outcomes chosen by the environment for the calls of one run of `copy_file`:
whether the call fails for a reason outside the model, the page `mmap` picks, and the
number of bytes the `write` is able to transfer. -/
structure Kernel where
  open_in_err : Bool
  fstat_err : Bool
  open_out_err : Bool
  mmap_page : Option Nat
  write_max : Option Nat
deriving DecidableEq

/-- Indeterminate initial values of the automatic variables of `copy_file` that are
declared without an initialiser (`int fin, fout; char *bi; struct stat st;`). -/
structure Locals where
  fout : Int
  bi : Int
  st : Stat
deriving DecidableEq

/-! ## The system calls -/

/-- The state after a call `c` that returned `r` and left the world `w`. -/
def Sys.step (s : Sys) (w : World) (c : Call) (r : Int) : Sys :=
  ⟨w, s.trace ++ [⟨c, r⟩]⟩

/-- The open file description behind a descriptor, if any. -/
def World.fd? (w : World) (fd : Int) : Option OpenFile :=
  if fd < 0 then none else (w.fds[fd.toNat]?).join

/-- The file a path names, if any (`none` for a null pointer or a missing name). -/
def World.file (w : World) (path : Option String) : Option Inode :=
  match path with
  | none => none
  | some p =>
    match w.names.lookup p with
    | none => none
    | some i => w.inodes[i]?

/-- Install an open file description at the lowest free descriptor number. -/
def allocFd : List (Option OpenFile) → OpenFile → List (Option OpenFile) × Nat
  | [], f => ([some f], 0)
  | none :: t, f => (some f :: t, 0)
  | some g :: t, f => ((some g :: (allocFd t f).1), (allocFd t f).2 + 1)

/-- The permission bits of a created file: the requested mode without the bits of the
file creation mask. -/
def createMode (mode umask : Nat) : Nat :=
  (mode &&& 0o7777) ^^^ ((mode &&& 0o7777) &&& umask)

/-- Effect of a successful `open(path, flags, mode)` and the descriptor it returns;
`none` when the call fails.  `err` is a failure decided by the environment. -/
def open_core (w : World) (path : Option String) (flags mode : Nat) (err : Bool) :
    Option (World × Nat) :=
  if err then none else
  match path with
  | none => none
  | some p =>
    let acc := flags &&& O_ACCMODE
    let rd := decide (acc = O_RDONLY ∨ acc = O_RDWR)
    let wr := decide (acc = O_WRONLY ∨ acc = O_RDWR)
    match w.names.lookup p with
    | some i =>
      match w.inodes[i]? with
      | none => none
      | some n =>
        let inodes :=
          if flags &&& O_TRUNC ≠ 0 ∧ wr = true then w.inodes.set i { n with data := [] }
          else w.inodes
        let a := allocFd w.fds ⟨i, 0, rd, wr⟩
        some ({ w with inodes := inodes, fds := a.1 }, a.2)
    | none =>
      if flags &&& O_CREAT ≠ 0 then
        let i := w.inodes.length
        let n : Inode := ⟨[], S_IFREG ||| createMode mode w.umask⟩
        let a := allocFd w.fds ⟨i, 0, rd, wr⟩
        some ({ w with inodes := w.inodes ++ [n], names := (p, i) :: w.names, fds := a.1 },
          a.2)
      else none

/-- The call `open(path, flags, mode)`: the new descriptor, or -1. -/
def sys_open (s : Sys) (path : Option String) (flags mode : Nat) (err : Bool) :
    Sys × Int :=
  match open_core s.world path flags mode err with
  | none => (s.step s.world (Call.open path flags mode) (-1), -1)
  | some r => (s.step r.1 (Call.open path flags mode) (r.2 : Int), (r.2 : Int))

/-- The metadata `fstat(fd, &st)` stores on success; `none` when the call fails.  A
size that does not fit `off_t` is `EOVERFLOW`. -/
def fstat_core (w : World) (fd : Int) (err : Bool) : Option Stat :=
  if err then none else
  match w.fd? fd with
  | none => none
  | some f =>
    match w.inodes[f.ino]? with
    | none => none
    | some n =>
      if n.data.length < 2 ^ 63 then some ⟨n.mode, (n.data.length : Int)⟩ else none

/-- The call `fstat(fd, &st)`: the buffer `st` is written only on success. -/
def sys_fstat (s : Sys) (fd : Int) (st : Stat) (err : Bool) : Sys × Stat × Int :=
  match fstat_core s.world fd err with
  | none => (s.step s.world (Call.fstat fd) (-1), st, -1)
  | some st1 => (s.step s.world (Call.fstat fd) 0, st1, 0)

/-- Effect of a successful `mmap(addr, len, prot, flags, fd, off)` for a private
read-only file mapping and the address it returns; `none` when the call fails.
`page` is the page the kernel picks, `none` when it has none to give. -/
def mmap_core (w : World) (len : Nat) (fd : Int) (off : Int) (page : Option Nat) :
    Option (World × Nat) :=
  if len = 0 ∧ w.mmapZeroLen = false then none else
  if off < 0 then none else
  match w.fd? fd with
  | none => none
  | some f =>
    if f.rd = false then none else
    match page with
    | none => none
    | some p =>
      let a := (p + 1) * PAGE_SIZE
      some ({ w with maps := ⟨a, len, f.ino, off.toNat⟩ :: w.maps }, a)

/-- The call `mmap(addr, len, prot, flags, fd, off)`: the address, or `MAP_FAILED`. -/
def sys_mmap (s : Sys) (addr : Int) (len prot flags : Nat) (fd : Int) (off : Int)
    (page : Option Nat) : Sys × Int :=
  match mmap_core s.world len fd off page with
  | none => (s.step s.world (Call.mmap addr len prot flags fd off) MAP_FAILED, MAP_FAILED)
  | some r => (s.step r.1 (Call.mmap addr len prot flags fd off) (r.2 : Int), (r.2 : Int))

/-- Number of zero bytes between the end of a file of length `n` and the end of its
last page. -/
def padLen (n : Nat) : Nat := (PAGE_SIZE - n % PAGE_SIZE) % PAGE_SIZE

/-- The bytes readable through a mapping: the current content of the file from the
mapping offset on, zero-filled to the end of the last page of the file, cut at the
length of the mapping.  Addresses past that fault. -/
def mapBytes (w : World) (m : Mapping) : List Byte :=
  match w.inodes[m.ino]? with
  | none => []
  | some n => ((n.data ++ List.replicate (padLen n.data.length) 0).drop m.off).take m.len

/-- The longest readable run of at most `count` bytes of user memory at `buf`. -/
def readMem (w : World) (buf : Int) (count : Nat) : List Byte :=
  if buf < 0 then [] else
  match w.maps.find? (fun m => decide (m.addr ≤ buf.toNat ∧ buf.toNat < m.addr + m.len)) with
  | none => []
  | some m => ((mapBytes w m).drop (buf.toNat - m.addr)).take count

/-- File content after writing `bytes` at offset `off`. -/
def overwrite (data : List Byte) (off : Nat) (bytes : List Byte) : List Byte :=
  data.take off ++ List.replicate (off - data.length) 0 ++ bytes
    ++ data.drop (off + bytes.length)

/-- Effect of a successful `write(fd, buf, count)` and the number of bytes it
transferred; `none` when the call fails.  `max` is the number of bytes the kernel is
able to take in this call, `none` for an error.  A buffer whose first byte is not
readable is `EFAULT`. -/
def write_core (w : World) (fd : Int) (buf : Int) (count : Nat) (max : Option Nat) :
    Option (World × Nat) :=
  match max with
  | none => none
  | some k =>
    match w.fd? fd with
    | none => none
    | some f =>
      if f.wr = false then none else
      match w.inodes[f.ino]? with
      | none => none
      | some n =>
        let avail := readMem w buf count
        if avail.length = 0 ∧ 0 < count then none else
        let bytes := avail.take k
        some ({ w with
            inodes := w.inodes.set f.ino { n with data := overwrite n.data f.offset bytes },
            fds := w.fds.set fd.toNat (some { f with offset := f.offset + bytes.length }) },
          bytes.length)

/-- The call `write(fd, buf, count)`: the number of bytes written, or -1. -/
def sys_write (s : Sys) (fd : Int) (buf : Int) (count : Nat) (max : Option Nat) :
    Sys × Int :=
  match write_core s.world fd buf count max with
  | none => (s.step s.world (Call.write fd buf count) (-1), -1)
  | some r => (s.step r.1 (Call.write fd buf count) (r.2 : Int), (r.2 : Int))

/-- Effect of a successful `close(fd)`; `none` when `fd` is not open (`EBADF`). -/
def close_core (w : World) (fd : Int) : Option World :=
  match w.fd? fd with
  | none => none
  | some _ => some { w with fds := w.fds.set fd.toNat none }

/-- The call `close(fd)`. -/
def sys_close (s : Sys) (fd : Int) : Sys × Int :=
  match close_core s.world fd with
  | none => (s.step s.world (Call.close fd) (-1), -1)
  | some w1 => (s.step w1 (Call.close fd) 0, 0)

/-- What is left of a mapping after the range `[lo, hi)` is unmapped. -/
def Mapping.cut (m : Mapping) (lo hi : Nat) : List Mapping :=
  (if m.addr < lo then [{ m with len := min m.len (lo - m.addr) }] else [])
    ++ (if hi < m.addr + m.len then
          [{ m with addr := max m.addr hi, len := m.addr + m.len - max m.addr hi,
                    off := m.off + (max m.addr hi - m.addr) }]
        else [])

/-- Effect of a successful `munmap(addr, len)`; `none` for `EINVAL`. -/
def munmap_core (w : World) (addr : Int) (len : Nat) : Option World :=
  if addr < 0 ∨ addr.toNat % PAGE_SIZE ≠ 0 ∨ len = 0 then none else
  let hi := addr.toNat + (len + padLen len)
  some { w with maps := (w.maps.map (fun m => m.cut addr.toNat hi)).flatten }

/-- The call `munmap(addr, len)`. -/
def sys_munmap (s : Sys) (addr : Int) (len : Nat) : Sys × Int :=
  match munmap_core s.world addr len with
  | none => (s.step s.world (Call.munmap addr len) (-1), -1)
  | some w1 => (s.step w1 (Call.munmap addr len) 0, 0)

/-- The call `puts(s)`: the string and a newline go to standard output. -/
def puts (s : Sys) (str : String) : Sys × Int :=
  (s.step s.world (Call.puts str) 1, 1)

/-! ## The program -/

/-- The code at the label `bail` of `copy_file`. -/
def bail (s : Sys) (fin fout bi : Int) (st : Stat) (ret : Int) : Sys × Int :=
  let s1 := if fin ≠ -1 then (sys_close s fin).1 else s
  let s2 := if fout ≠ -1 then (sys_close s1 fout).1 else s1
  let s3 := if bi ≠ MAP_FAILED then (sys_munmap s2 bi (toSizeT st.st_size)).1 else s2
  (s3, ret)

/-- The function `copy_file(in, out)`; the first parameter is named `inp` here. -/
def copy_file (k : Kernel) (u : Locals) (s : Sys) (inp out : Option String) :
    Sys × Int :=
  let ret : Int := 0
  let o1 := sys_open s inp O_RDONLY 0 k.open_in_err
  let fin := o1.2
  if fin = -1 then (o1.1, 0) else
  let f := sys_fstat o1.1 fin u.st k.fstat_err
  let st := f.2.1
  if f.2.2 ≠ 0 then bail f.1 fin u.fout u.bi st ret else
  let o2 := sys_open f.1 out (O_WRONLY ||| O_CREAT ||| O_TRUNC) (st.st_mode &&& 0o777)
    k.open_out_err
  let fout := o2.2
  if fout = -1 then bail o2.1 fin fout u.bi st ret else
  let m := sys_mmap o2.1 0 (toSizeT st.st_size) PROT_READ MAP_PRIVATE fin 0 k.mmap_page
  let bi := m.2
  let wr : Sys × Int :=
    if bi = MAP_FAILED then (m.1, 0)
    else
      let n := sys_write m.1 fout bi (toSizeT st.st_size) k.write_max
      (n.1, if n.2 = st.st_size then 1 else 0)
  bail wr.1 fin fout bi st wr.2

/-- The text `main` passes to `puts`. -/
def usage : String := "Usage: fcopy [infile] [outfile]\n"

/-- The function `main(argc, argv, env)`; `argv i` is the pointer read at `argv[i]`. -/
def main (k : Kernel) (u : Locals) (s : Sys) (argc : Int) (argv : Nat → Option String) :
    Sys × Int :=
  let s1 := if argc < 3 then (puts s usage).1 else s
  copy_file k u s1 (argv 1) (argv 2)

/-- The exit status of the process: the low eight bits of the value `main` returns. -/
def exit_status (ret : Int) : Int := ret % 256

/-! ## Observing a run -/

/-- The events a run from `s` to `s1` added to the trace. -/
def newEvents (s s1 : Sys) : List Event := s1.trace.drop s.trace.length

/-- Whether a call releases a resource. -/
def isRelease : Call → Bool
  | Call.close _ => true
  | Call.munmap _ _ => true
  | _ => false

/-- The release calls of a list of events, in the order they were issued. -/
def releases (t : List Event) : List Call := (t.map Event.call).filter isRelease

/-! ## Sample states -/

def hello : List Byte := [104, 101, 108, 108, 111, 32, 119, 111, 114, 108, 100]

/-- A process with the three standard descriptors open on a terminal (inode 0) and
three files: `src.txt` holding `hello world` with mode 0644, the empty `empty.txt`
with mode 0644, and `old.txt` holding three bytes with mode 0600. -/
def world0 : World :=
  { inodes := [⟨[], 0o20620⟩, ⟨hello, 0o100644⟩, ⟨[], 0o100644⟩, ⟨[111, 108, 100], 0o100600⟩]
    names := [("src.txt", 1), ("empty.txt", 2), ("old.txt", 3)]
    fds := [some ⟨0, 0, true, true⟩, some ⟨0, 0, true, true⟩, some ⟨0, 0, true, true⟩]
    maps := []
    umask := 0o022
    mmapZeroLen := false }

def sys0 : Sys := ⟨world0, []⟩

/-- A run in which no call fails for reasons outside the modelled state. -/
def kernelOk : Kernel :=
  { open_in_err := false, fstat_err := false, open_out_err := false,
    mmap_page := some 7, write_max := some 1000000 }

/-- A run in which creating the destination is refused (`EACCES`). -/
def kernelNoCreate : Kernel := { kernelOk with open_out_err := true }

/-- A run in which `fstat` fails (`EIO`). -/
def kernelNoStat : Kernel := { kernelOk with fstat_err := true }

/-- Initial values of the locals that happen to be the "nothing acquired" values. -/
def localsClean : Locals := { fout := -1, bi := -1, st := ⟨0, 0⟩ }

/-- Initial values of the locals left over from earlier stack frames: `fout` holds 1
(the number of standard output), `bi` the address 8192. -/
def localsDirty : Locals := { fout := 1, bi := 8192, st := ⟨0, 4096⟩ }

/-! ## The system calls and the cleanup code: basic facts -/

theorem allocFd_get (fds : List (Option OpenFile)) (f : OpenFile) :
    (allocFd fds f).1[(allocFd fds f).2]? = some (some f) := by
  induction fds with
  | nil => simp [allocFd]
  | cons h t ih =>
    cases h with
    | none => simp [allocFd]
    | some g => simpa [allocFd] using ih

theorem allocFd_other (fds : List (Option OpenFile)) (f : OpenFile) (j : Nat)
    (hj : j ≠ (allocFd fds f).2) : (allocFd fds f).1[j]? = fds[j]? := by
  induction fds generalizing j with
  | nil =>
    cases j with
    | zero => simp [allocFd] at hj
    | succ n => simp [allocFd]
  | cons h t ih =>
    cases h with
    | none =>
      cases j with
      | zero => simp [allocFd] at hj
      | succ n => simp [allocFd]
    | some g =>
      cases j with
      | zero => simp [allocFd]
      | succ n =>
        have : n ≠ (allocFd t f).2 := by
          intro h; apply hj; simp [allocFd, h]
        simpa [allocFd] using ih n this

theorem allocFd_free (fds : List (Option OpenFile)) (f : OpenFile) :
    (fds[(allocFd fds f).2]?).join = none := by
  induction fds with
  | nil => simp [allocFd]
  | cons h t ih =>
    cases h with
    | none => simp [allocFd]
    | some g => simpa [allocFd] using ih

theorem fd?_natCast (w : World) (n : Nat) : w.fd? (n : Int) = (w.fds[n]?).join := by
  simp [World.fd?]

/-- A successful read-only open resolves the path and changes the descriptor table only. -/
theorem open_rd_some (w w1 : World) (inp : Option String) (e : Bool) (fd : Nat)
    (h : open_core w inp O_RDONLY 0 e = some (w1, fd)) :
    ∃ p i src, inp = some p ∧ w.names.lookup p = some i ∧ w.inodes[i]? = some src ∧
      w1 = { w with fds := (allocFd w.fds ⟨i, 0, true, false⟩).1 } ∧
      fd = (allocFd w.fds ⟨i, 0, true, false⟩).2 := by
  unfold open_core at h
  cases e with
  | true => simp at h
  | false =>
    cases inp with
    | none => simp at h
    | some p =>
      cases hl : w.names.lookup p with
      | none =>
        have : ¬ (O_RDONLY &&& O_CREAT ≠ 0) := by decide
        simp [hl, this] at h
      | some i =>
        cases hi : w.inodes[i]? with
        | none => simp [hl, hi] at h
        | some src =>
          have h1 : ¬ (O_RDONLY &&& O_TRUNC ≠ 0) := by decide
          have h2 : (O_RDONLY &&& O_ACCMODE = O_RDONLY ∨ O_RDONLY &&& O_ACCMODE = O_RDWR) := by decide
          have h3 : ¬ (O_RDONLY &&& O_ACCMODE = O_WRONLY ∨ O_RDONLY &&& O_ACCMODE = O_RDWR) := by decide
          simp [hl, hi, h1, h2, h3] at h
          exact ⟨p, i, src, rfl, hl, hi, h.1.symm, h.2.symm⟩

/-- A successful create/truncate open either truncates the file the path names or adds
a new empty file under that path. -/
theorem open_wr_some (w w1 : World) (out : Option String) (mode : Nat) (e : Bool) (fd : Nat)
    (h : open_core w out (O_WRONLY ||| O_CREAT ||| O_TRUNC) mode e = some (w1, fd)) :
    (∃ q j old, out = some q ∧ w.names.lookup q = some j ∧ w.inodes[j]? = some old ∧
      w1 = { w with inodes := w.inodes.set j { old with data := [] },
                    fds := (allocFd w.fds ⟨j, 0, false, true⟩).1 } ∧
      fd = (allocFd w.fds ⟨j, 0, false, true⟩).2) ∨
    (∃ q, out = some q ∧ w.names.lookup q = none ∧
      w1 = { w with inodes := w.inodes ++ [⟨[], S_IFREG ||| createMode mode w.umask⟩],
                    names := (q, w.inodes.length) :: w.names,
                    fds := (allocFd w.fds ⟨w.inodes.length, 0, false, true⟩).1 } ∧
      fd = (allocFd w.fds ⟨w.inodes.length, 0, false, true⟩).2) := by
  unfold open_core at h
  have h1 : (O_WRONLY ||| O_CREAT ||| O_TRUNC) &&& O_TRUNC ≠ 0 := by decide
  have h2 : ¬ ((O_WRONLY ||| O_CREAT ||| O_TRUNC) &&& O_ACCMODE = O_RDONLY ∨
      (O_WRONLY ||| O_CREAT ||| O_TRUNC) &&& O_ACCMODE = O_RDWR) := by decide
  have h3 : ((O_WRONLY ||| O_CREAT ||| O_TRUNC) &&& O_ACCMODE = O_WRONLY ∨
      (O_WRONLY ||| O_CREAT ||| O_TRUNC) &&& O_ACCMODE = O_RDWR) := by decide
  have h4 : (O_WRONLY ||| O_CREAT ||| O_TRUNC) &&& O_CREAT ≠ 0 := by decide
  cases e with
  | true => simp at h
  | false =>
    cases out with
    | none => simp at h
    | some q =>
      cases hl : w.names.lookup q with
      | none =>
        simp [hl, h1, h2, h3, h4] at h
        exact Or.inr ⟨q, rfl, hl, h.1.symm, h.2.symm⟩
      | some j =>
        cases hi : w.inodes[j]? with
        | none => simp [hl, hi] at h
        | some old =>
          simp [hl, hi, h1, h2, h3] at h
          exact Or.inl ⟨q, j, old, rfl, hl, hi, h.1.symm, h.2.symm⟩

theorem fstat_some (w : World) (fd : Int) (e : Bool) (st : Stat)
    (h : fstat_core w fd e = some st) :
    ∃ f n, w.fd? fd = some f ∧ w.inodes[f.ino]? = some n ∧ n.data.length < 2 ^ 63 ∧
      st = ⟨n.mode, (n.data.length : Int)⟩ := by
  unfold fstat_core at h
  cases e with
  | true => simp at h
  | false =>
    cases hf : w.fd? fd with
    | none => simp [hf] at h
    | some f =>
      cases hn : w.inodes[f.ino]? with
      | none => simp [hf, hn] at h
      | some n =>
        by_cases hl : n.data.length < 2 ^ 63
        · simp only [hf, hn, if_pos hl, Bool.false_eq_true, if_false, Option.some.injEq] at h
          exact ⟨f, n, rfl, hn, hl, h.symm⟩
        · simp only [hf, hn, if_neg hl, Bool.false_eq_true, if_false] at h
          exact absurd h (by simp)

theorem mmap_some (w w1 : World) (len : Nat) (fd : Int) (page : Option Nat) (a : Nat)
    (h : mmap_core w len fd 0 page = some (w1, a)) :
    ∃ f, w.fd? fd = some f ∧ f.rd = true ∧ (len ≠ 0 ∨ w.mmapZeroLen = true) ∧
      w1 = { w with maps := ⟨a, len, f.ino, 0⟩ :: w.maps } := by
  unfold mmap_core at h
  by_cases hz : len = 0 ∧ w.mmapZeroLen = false
  · simp [hz] at h
  · cases hf : w.fd? fd with
    | none => simp [hz, hf] at h
    | some f =>
      cases hr : f.rd with
      | false => simp [hz, hf, hr] at h
      | true =>
        cases page with
        | none => simp [hz, hf, hr] at h
        | some p =>
          simp only [hz, hf, hr, if_false, Int.lt_irrefl, Int.toNat_zero] at h
          simp at h
          refine ⟨f, rfl, hr, ?_, ?_⟩
          · by_cases h0 : len = 0
            · right
              cases hm : w.mmapZeroLen with
              | true => rfl
              | false => exact absurd ⟨h0, hm⟩ hz
            · left; exact h0
          · rw [← h.2, ← h.1]

theorem write_some (w w1 : World) (fd buf : Int) (count : Nat) (max : Option Nat) (n : Nat)
    (h : write_core w fd buf count max = some (w1, n)) :
    ∃ k f nd, max = some k ∧ w.fd? fd = some f ∧ f.wr = true ∧ w.inodes[f.ino]? = some nd ∧
      ¬ ((readMem w buf count).length = 0 ∧ 0 < count) ∧
      n = ((readMem w buf count).take k).length ∧
      w1 = { w with
        inodes := w.inodes.set f.ino
          { nd with data := overwrite nd.data f.offset ((readMem w buf count).take k) },
        fds := w.fds.set fd.toNat
          (some { f with offset := f.offset + ((readMem w buf count).take k).length }) } := by
  unfold write_core at h
  cases max with
  | none => simp at h
  | some k =>
    cases hf : w.fd? fd with
    | none => simp [hf] at h
    | some f =>
      cases hw : f.wr with
      | false => simp [hf, hw] at h
      | true =>
        cases hn : w.inodes[f.ino]? with
        | none => simp [hf, hw, hn] at h
        | some nd =>
          by_cases ha : (readMem w buf count).length = 0 ∧ 0 < count
          · simp only [hf, hw, hn, ha] at h
            simp at h
          · simp only [hf, hw, hn, ha, Bool.true_eq_false, if_false, Option.some.injEq,
              Prod.mk.injEq] at h
            exact ⟨k, f, nd, rfl, rfl, hw, hn, ha, h.2.symm, by rw [hw]; exact h.1.symm⟩

theorem fd?_set_none_self (w : World) (fd : Int) (fds : List (Option OpenFile))
    (h : fds = w.fds.set fd.toNat none) :
    ({ w with fds := fds } : World).fd? fd = none := by
  subst h
  unfold World.fd?
  by_cases hneg : fd < 0
  · simp [hneg]
  · simp only [hneg, if_false]
    by_cases hlt : fd.toNat < w.fds.length
    · simp [List.getElem?_set, hlt]
    · simp [List.getElem?_set, hlt]

theorem fd?_set_none_of_none (w : World) (fd g : Int) (h : w.fd? g = none) :
    ({ w with fds := w.fds.set fd.toNat none } : World).fd? g = none := by
  unfold World.fd? at h ⊢
  by_cases hneg : g < 0
  · simp [hneg]
  · simp only [hneg, if_false] at h ⊢
    by_cases he : fd.toNat = g.toNat
    · by_cases hlt : g.toNat < w.fds.length
      · simp [List.getElem?_set, he, hlt]
      · simp [List.getElem?_set, he, hlt]
    · rw [List.getElem?_set_ne he]
      exact h

/-- The call `close(fd)` adds one event, leaves files, names and mappings alone, and
leaves `fd` closed. -/
theorem sys_close_spec (s : Sys) (fd : Int) :
    ∃ w1 r, sys_close s fd = (⟨w1, s.trace ++ [⟨Call.close fd, r⟩]⟩, r) ∧
      w1.inodes = s.world.inodes ∧ w1.names = s.world.names ∧ w1.maps = s.world.maps ∧
      w1.fd? fd = none ∧ ∀ g, s.world.fd? g = none → w1.fd? g = none := by
  unfold sys_close close_core
  cases hf : s.world.fd? fd with
  | none =>
    exact ⟨s.world, -1, rfl, rfl, rfl, rfl, hf, fun g hg => hg⟩
  | some f =>
    exact ⟨_, 0, rfl, rfl, rfl, rfl, fd?_set_none_self s.world fd _ rfl,
      fun g hg => fd?_set_none_of_none s.world fd g hg⟩

/-- The call `munmap(addr, len)` adds one event and changes mappings only. -/
theorem sys_munmap_spec (s : Sys) (addr : Int) (len : Nat) :
    ∃ w1 r, sys_munmap s addr len = (⟨w1, s.trace ++ [⟨Call.munmap addr len, r⟩]⟩, r) ∧
      w1.inodes = s.world.inodes ∧ w1.names = s.world.names ∧ w1.fds = s.world.fds := by
  unfold sys_munmap munmap_core
  by_cases h : addr < 0 ∨ addr.toNat % PAGE_SIZE ≠ 0 ∨ len = 0
  · rw [if_pos h]
    exact ⟨s.world, -1, rfl, rfl, rfl, rfl⟩
  · rw [if_neg h]
    exact ⟨_, 0, rfl, rfl, rfl, rfl⟩

/-- The cleanup code: the calls it issues, in order, and what it leaves untouched. -/
theorem bail_spec (s : Sys) (fin fout bi : Int) (st : Stat) (ret : Int) :
    ∃ w1 evs, bail s fin fout bi st ret = (⟨w1, s.trace ++ evs⟩, ret) ∧
      evs.map Event.call =
        (if fin ≠ -1 then [Call.close fin] else []) ++
        (if fout ≠ -1 then [Call.close fout] else []) ++
        (if bi ≠ MAP_FAILED then [Call.munmap bi (toSizeT st.st_size)] else []) ∧
      w1.inodes = s.world.inodes ∧ w1.names = s.world.names ∧
      (fin ≠ -1 → w1.fd? fin = none) := by
  unfold bail
  obtain ⟨wa, ra, ha, hai, han, _, haf, hag⟩ := sys_close_spec s fin
  by_cases h1 : fin ≠ -1
  · simp only [if_pos h1, ha]
    obtain ⟨wb, rb, hb, hbi, hbn, _, _, hbg⟩ :=
      sys_close_spec ⟨wa, s.trace ++ [⟨Call.close fin, ra⟩]⟩ fout
    by_cases h2 : fout ≠ -1
    · simp only [if_pos h2, hb]
      obtain ⟨wc, rc, hc, hci, hcn, hcf⟩ :=
        sys_munmap_spec ⟨wb, s.trace ++ [⟨Call.close fin, ra⟩] ++ [⟨Call.close fout, rb⟩]⟩
          bi (toSizeT st.st_size)
      by_cases h3 : bi ≠ MAP_FAILED
      · simp only [if_pos h3, hc]
        refine ⟨wc, [⟨Call.close fin, ra⟩, ⟨Call.close fout, rb⟩, ⟨Call.munmap bi (toSizeT st.st_size), rc⟩],
          by simp, by simp, ?_, ?_, ?_⟩
        · rw [hci, hbi, hai]
        · rw [hcn, hbn, han]
        · intro _
          have := hbg fin haf
          unfold World.fd? at this ⊢
          rw [hcf]; exact this
      · simp only [if_neg h3]
        refine ⟨wb, [⟨Call.close fin, ra⟩, ⟨Call.close fout, rb⟩], by simp, by simp, ?_, ?_, ?_⟩
        · rw [hbi, hai]
        · rw [hbn, han]
        · intro _; exact hbg fin haf
    · simp only [if_neg h2]
      obtain ⟨wc, rc, hc, hci, hcn, hcf⟩ :=
        sys_munmap_spec ⟨wa, s.trace ++ [⟨Call.close fin, ra⟩]⟩ bi (toSizeT st.st_size)
      by_cases h3 : bi ≠ MAP_FAILED
      · simp only [if_pos h3, hc]
        refine ⟨wc, [⟨Call.close fin, ra⟩, ⟨Call.munmap bi (toSizeT st.st_size), rc⟩], by simp, by simp, ?_, ?_, ?_⟩
        · rw [hci, hai]
        · rw [hcn, han]
        · intro _
          unfold World.fd? at haf ⊢
          rw [hcf]; exact haf
      · simp only [if_neg h3]
        exact ⟨wa, [⟨Call.close fin, ra⟩], by simp, by simp, hai, han, fun _ => haf⟩
  · simp only [if_neg h1]
    obtain ⟨wb, rb, hb, hbi, hbn, _, _, hbg⟩ := sys_close_spec s fout
    by_cases h2 : fout ≠ -1
    · simp only [if_pos h2, hb]
      obtain ⟨wc, rc, hc, hci, hcn, hcf⟩ :=
        sys_munmap_spec ⟨wb, s.trace ++ [⟨Call.close fout, rb⟩]⟩ bi (toSizeT st.st_size)
      by_cases h3 : bi ≠ MAP_FAILED
      · simp only [if_pos h3, hc]
        refine ⟨wc, [⟨Call.close fout, rb⟩, ⟨Call.munmap bi (toSizeT st.st_size), rc⟩], by simp, by simp, ?_, ?_, ?_⟩
        · rw [hci, hbi]
        · rw [hcn, hbn]
        · intro h; exact absurd h h1
      · simp only [if_neg h3]
        exact ⟨wb, [⟨Call.close fout, rb⟩], by simp, by simp, hbi, hbn, fun h => absurd h h1⟩
    · simp only [if_neg h2]
      obtain ⟨wc, rc, hc, hci, hcn, hcf⟩ := sys_munmap_spec s bi (toSizeT st.st_size)
      by_cases h3 : bi ≠ MAP_FAILED
      · simp only [if_pos h3, hc]
        exact ⟨wc, [⟨Call.munmap bi (toSizeT st.st_size), rc⟩], by simp, by simp, hci, hcn, fun h => absurd h h1⟩
      · simp only [if_neg h3]
        exact ⟨s.world, [], by simp, by simp, rfl, rfl, fun h => absurd h h1⟩

theorem natCast_ne_neg_one (n : Nat) : (n : Int) ≠ -1 := by omega

theorem toSizeT_natCast (n : Nat) (h : n < 2 ^ 63) : toSizeT (n : Int) = n := by
  unfold toSizeT
  have h2 : ((n : Int) % 2 ^ 64) = (n : Int) := by
    apply Int.emod_eq_of_lt
    · omega
    · have : (2 : Int) ^ 64 = 18446744073709551616 := by norm_num
      have h3 : (2 : Nat) ^ 63 = 9223372036854775808 := by norm_num
      omega
  rw [h2]
  simp

theorem fstat_size_nonneg (w : World) (fd : Int) (e : Bool) (st : Stat)
    (h : fstat_core w fd e = some st) : 0 ≤ st.st_size ∧ toSizeT st.st_size = st.st_size := by
  obtain ⟨f, n, _, _, hlen, hst⟩ := fstat_some w fd e st h
  rw [hst]
  simp only
  rw [toSizeT_natCast _ hlen]
  exact ⟨by omega, rfl⟩

/-- The cleanup code run after the events `pre` of a run from `s`: the events of the
whole run, and what the cleanup leaves untouched. -/
theorem bail_events (s : Sys) (w : World) (pre : List Event) (fin fout bi : Int) (st : Stat)
    (ret : Int) (r : Sys × Int) (hc : r = bail ⟨w, s.trace ++ pre⟩ fin fout bi st ret) :
    ∃ wf evs, r = (⟨wf, s.trace ++ (pre ++ evs)⟩, ret) ∧ newEvents s r.1 = pre ++ evs ∧
      evs.map Event.call =
        (if fin ≠ -1 then [Call.close fin] else []) ++
        (if fout ≠ -1 then [Call.close fout] else []) ++
        (if bi ≠ MAP_FAILED then [Call.munmap bi (toSizeT st.st_size)] else []) ∧
      wf.inodes = w.inodes ∧ wf.names = w.names ∧ (fin ≠ -1 → wf.fd? fin = none) := by
  obtain ⟨wf, evs, hb, hev, hi, hn, hf⟩ := bail_spec ⟨w, s.trace ++ pre⟩ fin fout bi st ret
  refine ⟨wf, evs, ?_, ?_, hev, hi, hn, hf⟩
  · rw [hc, hb, List.append_assoc]
  · rw [hc, hb]
    simp [newEvents, List.append_assoc]

/-- The six paths through `copy_file`: which call failed, the events issued up to the
cleanup, and the arguments the cleanup code runs with. -/
theorem copy_file_cases (k : Kernel) (u : Locals) (s : Sys) (inp out : Option String) :
    (open_core s.world inp O_RDONLY 0 k.open_in_err = none ∧
      copy_file k u s inp out =
        (⟨s.world, s.trace ++ [⟨Call.open inp O_RDONLY 0, -1⟩]⟩, 0)) ∨
    ∃ w1 fin, open_core s.world inp O_RDONLY 0 k.open_in_err = some (w1, fin) ∧
    ((fstat_core w1 fin k.fstat_err = none ∧
      copy_file k u s inp out =
        bail ⟨w1, s.trace ++ [⟨Call.open inp O_RDONLY 0, fin⟩, ⟨Call.fstat fin, -1⟩]⟩
          fin u.fout u.bi u.st 0) ∨
    ∃ st, fstat_core w1 fin k.fstat_err = some st ∧
    ((open_core w1 out (O_WRONLY ||| O_CREAT ||| O_TRUNC) (st.st_mode &&& 0o777)
        k.open_out_err = none ∧
      copy_file k u s inp out =
        bail ⟨w1, s.trace ++ [⟨Call.open inp O_RDONLY 0, fin⟩, ⟨Call.fstat fin, 0⟩,
            ⟨Call.open out (O_WRONLY ||| O_CREAT ||| O_TRUNC) (st.st_mode &&& 0o777), -1⟩]⟩
          fin (-1) u.bi st 0) ∨
    ∃ w3 fout, open_core w1 out (O_WRONLY ||| O_CREAT ||| O_TRUNC) (st.st_mode &&& 0o777)
        k.open_out_err = some (w3, fout) ∧
    ((mmap_core w3 (toSizeT st.st_size) fin 0 k.mmap_page = none ∧
      copy_file k u s inp out =
        bail ⟨w3, s.trace ++ [⟨Call.open inp O_RDONLY 0, fin⟩, ⟨Call.fstat fin, 0⟩,
            ⟨Call.open out (O_WRONLY ||| O_CREAT ||| O_TRUNC) (st.st_mode &&& 0o777), fout⟩,
            ⟨Call.mmap 0 (toSizeT st.st_size) PROT_READ MAP_PRIVATE fin 0, MAP_FAILED⟩]⟩
          fin fout MAP_FAILED st 0) ∨
    ∃ w4 bi, mmap_core w3 (toSizeT st.st_size) fin 0 k.mmap_page = some (w4, bi) ∧
    ((write_core w4 fout bi (toSizeT st.st_size) k.write_max = none ∧
      copy_file k u s inp out =
        bail ⟨w4, s.trace ++ [⟨Call.open inp O_RDONLY 0, fin⟩, ⟨Call.fstat fin, 0⟩,
            ⟨Call.open out (O_WRONLY ||| O_CREAT ||| O_TRUNC) (st.st_mode &&& 0o777), fout⟩,
            ⟨Call.mmap 0 (toSizeT st.st_size) PROT_READ MAP_PRIVATE fin 0, bi⟩,
            ⟨Call.write fout bi (toSizeT st.st_size), -1⟩]⟩
          fin fout bi st 0) ∨
    ∃ w5 n, write_core w4 fout bi (toSizeT st.st_size) k.write_max = some (w5, n) ∧
      copy_file k u s inp out =
        bail ⟨w5, s.trace ++ [⟨Call.open inp O_RDONLY 0, fin⟩, ⟨Call.fstat fin, 0⟩,
            ⟨Call.open out (O_WRONLY ||| O_CREAT ||| O_TRUNC) (st.st_mode &&& 0o777), fout⟩,
            ⟨Call.mmap 0 (toSizeT st.st_size) PROT_READ MAP_PRIVATE fin 0, bi⟩,
            ⟨Call.write fout bi (toSizeT st.st_size), n⟩]⟩
          fin fout bi st (if (n : Int) = st.st_size then 1 else 0))))) := by
  cases h1 : open_core s.world inp O_RDONLY 0 k.open_in_err with
  | none =>
    left
    refine ⟨rfl, ?_⟩
    simp [copy_file, sys_open, h1, Sys.step]
  | some r1 =>
    obtain ⟨w1, fin⟩ := r1
    right
    refine ⟨w1, fin, rfl, ?_⟩
    have hfin := natCast_ne_neg_one fin
    cases h2 : fstat_core w1 fin k.fstat_err with
    | none =>
      left
      refine ⟨rfl, ?_⟩
      simp [copy_file, sys_open, h1, Sys.step, hfin, sys_fstat, h2]
    | some st =>
      right
      refine ⟨st, rfl, ?_⟩
      have hnn : ¬ ((-1 : Int) = st.st_size) := by
        have := (fstat_size_nonneg w1 fin _ st h2).1
        omega
      cases h3 : open_core w1 out (O_WRONLY ||| O_CREAT ||| O_TRUNC) (st.st_mode &&& 0o777)
          k.open_out_err with
      | none =>
        left
        refine ⟨rfl, ?_⟩
        simp [copy_file, sys_open, h1, Sys.step, hfin, sys_fstat, h2, h3]
      | some r3 =>
        obtain ⟨w3, fout⟩ := r3
        right
        refine ⟨w3, fout, rfl, ?_⟩
        have hfout := natCast_ne_neg_one fout
        cases h4 : mmap_core w3 (toSizeT st.st_size) fin 0 k.mmap_page with
        | none =>
          left
          refine ⟨rfl, ?_⟩
          simp [copy_file, sys_open, h1, Sys.step, hfin, sys_fstat, h2, h3, hfout, sys_mmap, h4]
        | some r4 =>
          obtain ⟨w4, bi⟩ := r4
          right
          refine ⟨w4, bi, rfl, ?_⟩
          have hbi : (bi : Int) ≠ MAP_FAILED := natCast_ne_neg_one bi
          cases h5 : write_core w4 fout bi (toSizeT st.st_size) k.write_max with
          | none =>
            left
            refine ⟨rfl, ?_⟩
            simp [copy_file, sys_open, h1, Sys.step, hfin, sys_fstat, h2, h3, hfout, sys_mmap,
              h4, hbi, sys_write, h5, hnn]
          | some r5 =>
            obtain ⟨w5, n⟩ := r5
            right
            refine ⟨w5, n, rfl, ?_⟩
            simp [copy_file, sys_open, h1, Sys.step, hfin, sys_fstat, h2, h3, hfout, sys_mmap,
              h4, hbi, sys_write, h5]

/-- What a successful create/truncate open leaves: the path names an empty file `d0`
with number `j`, every other file is as before. -/
theorem open_wr_facts (w w1 : World) (out : Option String) (mode : Nat) (e : Bool) (fd : Nat)
    (h : open_core w out (O_WRONLY ||| O_CREAT ||| O_TRUNC) mode e = some (w1, fd)) :
    ∃ q j d0, out = some q ∧ w1.names.lookup q = some j ∧ w1.inodes[j]? = some d0 ∧
      d0.data = [] ∧ (∀ i, i ≠ j → w1.inodes[i]? = w.inodes[i]?) ∧
      w1.fds = (allocFd w.fds ⟨j, 0, false, true⟩).1 ∧
      fd = (allocFd w.fds ⟨j, 0, false, true⟩).2 ∧
      w1.maps = w.maps ∧ w1.mmapZeroLen = w.mmapZeroLen ∧
      (∀ old, w.file out = some old → d0.mode = old.mode) ∧
      (w.file out = none → d0.mode = S_IFREG ||| createMode mode w.umask) ∧
      (∀ old, w.inodes[j]? = some old → d0.mode = old.mode) := by
  rcases open_wr_some w w1 out mode e fd h with
    ⟨q, j, old, hq, hl, hi, hw, hfd⟩ | ⟨q, hq, hl, hw, hfd⟩
  · have hj : j < w.inodes.length := by
      rcases List.getElem?_eq_some_iff.mp hi with ⟨hlt, _⟩
      exact hlt
    refine ⟨q, j, { old with data := [] }, hq, ?_, ?_, rfl, ?_, ?_, hfd, ?_, ?_, ?_, ?_, ?_⟩
    · rw [hw]; exact hl
    · rw [hw]; simp [List.getElem?_set, hj]
    · intro i hne
      rw [hw]
      simp [List.getElem?_set, Ne.symm hne]
    · rw [hw]
    · rw [hw]
    · rw [hw]
    · intro o ho
      simp [World.file, hq, hl, hi] at ho
      rw [← ho]
    · intro ho
      simp [World.file, hq, hl, hi] at ho
    · intro o ho
      rw [hi] at ho
      simp at ho
      rw [← ho]
  · refine ⟨q, w.inodes.length, ⟨[], S_IFREG ||| createMode mode w.umask⟩, hq, ?_, ?_, rfl,
      ?_, ?_, hfd, ?_, ?_, ?_, ?_, ?_⟩
    · rw [hw]; simp [List.lookup]
    · rw [hw]; simp
    · intro i hne
      rw [hw]
      simp only
      by_cases hlt : i < w.inodes.length
      · rw [List.getElem?_append_left hlt]
      · have hgt : w.inodes.length < i := by omega
        rw [List.getElem?_eq_none (by simp; omega), List.getElem?_eq_none (by omega)]
    · rw [hw]
    · rw [hw]
    · rw [hw]
    · intro o ho
      simp [World.file, hq, hl] at ho
    · intro _; rfl
    · intro o ho
      rw [List.getElem?_eq_none (by omega)] at ho
      simp at ho

/-- The state reached once the source is open, its metadata is read and the
destination is open: `src` is the source file as it was before the call, `d0` the
(now empty) destination file. -/
theorem opened_facts (w w1 w3 : World) (inp out : Option String) (e1 e2 e3 : Bool)
    (fin fout : Nat) (st : Stat)
    (h1 : open_core w inp O_RDONLY 0 e1 = some (w1, fin))
    (h2 : fstat_core w1 fin e2 = some st)
    (h3 : open_core w1 out (O_WRONLY ||| O_CREAT ||| O_TRUNC) (st.st_mode &&& 0o777) e3
      = some (w3, fout)) :
    ∃ i src q j d0, w.file inp = some src ∧ w.inodes[i]? = some src ∧
      st = ⟨src.mode, (src.data.length : Int)⟩ ∧ src.data.length < 2 ^ 63 ∧
      out = some q ∧ w3.names.lookup q = some j ∧ w3.inodes[j]? = some d0 ∧ d0.data = [] ∧
      (i ≠ j → w3.inodes[i]? = some src) ∧
      w3.fd? fin = some ⟨i, 0, true, false⟩ ∧ w3.fd? fout = some ⟨j, 0, false, true⟩ ∧
      w3.mmapZeroLen = w.mmapZeroLen ∧
      (∀ old, w.file out = some old → d0.mode = old.mode) ∧
      (w.file out = none → d0.mode = S_IFREG ||| createMode (src.mode &&& 0o777) w.umask) := by
  obtain ⟨p, i, src, hp, hl, hi, hw1, hfin⟩ := open_rd_some w w1 inp e1 fin h1
  obtain ⟨f, n, hf, hn, hlen, hst⟩ := fstat_some w1 fin e2 st h2
  have hfd1 : w1.fd? fin = some ⟨i, 0, true, false⟩ := by
    rw [fd?_natCast, hw1, hfin]
    simp only
    rw [allocFd_get]; rfl
  rw [hfd1] at hf
  have hfi : f = ⟨i, 0, true, false⟩ := by
    simp at hf; exact hf.symm
  have hinodes1 : w1.inodes = w.inodes := by rw [hw1]
  have hn2 : n = src := by
    rw [hfi, hinodes1] at hn
    simp only at hn
    rw [hi] at hn
    simp at hn; exact hn.symm
  subst hn2
  obtain ⟨q, j, d0, hq, hnm, hd0, hdata, hoth, hfds, hfout, _, hz, hold, hnew, _⟩ :=
    open_wr_facts w1 w3 out (st.st_mode &&& 0o777) e3 fout h3
  have hne : fin ≠ fout := by
    intro heq
    have h4 := allocFd_free w1.fds ⟨j, 0, false, true⟩
    rw [← hfout, ← heq] at h4
    rw [fd?_natCast] at hfd1
    rw [hfd1] at h4
    simp at h4
  have hfile : ∀ pth, w1.file pth = w.file pth := by
    intro pth; rw [hw1]; rfl
  refine ⟨i, n, q, j, d0, ?_, hi, hst, hlen, hq, hnm, hd0, hdata, ?_, ?_, ?_, ?_, ?_, ?_⟩
  · simp [World.file, hp, hl, hi]
  · intro hij
    rw [hoth i hij, hinodes1, hi]
  · rw [fd?_natCast, hfds, allocFd_other _ _ _ (by rw [← hfout]; exact hne), ← fd?_natCast]
    exact hfd1
  · rw [fd?_natCast, hfds, hfout, allocFd_get]; rfl
  · rw [hz, hw1]
  · intro old ho
    exact hold old (by rw [hfile]; exact ho)
  · intro ho
    have := hnew (by rw [hfile]; exact ho)
    rw [this, hst, hw1]

theorem readMem_length_le (w : World) (buf : Int) (count : Nat) :
    (readMem w buf count).length ≤ count := by
  unfold readMem
  split
  · simp
  · split
    · simp
    · simp [List.length_take]

theorem overwrite_nil_zero (bytes : List Byte) : overwrite [] 0 bytes = bytes := by
  simp [overwrite]

theorem padLen_zero : padLen 0 = 0 := by decide

/-- Reading `N > 0` bytes at the start of a fresh mapping of `N` bytes of file `i`. -/
theorem readMem_fresh (w : World) (bi N i : Nat) (maps : List Mapping) (n : Inode)
    (hN : 0 < N) (hi : w.inodes[i]? = some n) :
    readMem { w with maps := ⟨bi, N, i, 0⟩ :: maps } (bi : Int) N
      = (n.data ++ List.replicate (padLen n.data.length) 0).take N := by
  unfold readMem
  have h0 : ¬ ((bi : Int) < 0) := by omega
  simp only [h0, if_false, Int.toNat_ofNat]
  have hc : decide (bi ≤ bi ∧ bi < bi + N) = true := by
    simp; exact hN
  simp only [List.find?_cons, hc]
  simp [mapBytes, hi]

/-- The state after a successful `mmap` and `write` on the opened files: the
destination holds the `n` bytes written, and all of the source when `n` is its length. -/
theorem written_facts (w3 w4 w5 : World) (fin fout bi n i j : Nat) (src d0 : Inode)
    (page max : Option Nat)
    (hfin : w3.fd? fin = some ⟨i, 0, true, false⟩)
    (hfout : w3.fd? fout = some ⟨j, 0, false, true⟩)
    (hd0 : w3.inodes[j]? = some d0) (hdata : d0.data = [])
    (hsrc : i ≠ j → w3.inodes[i]? = some src)
    (h4 : mmap_core w3 src.data.length fin 0 page = some (w4, bi))
    (h5 : write_core w4 fout bi src.data.length max = some (w5, n)) :
    w5.names = w3.names ∧ n ≤ src.data.length ∧
    ∃ d, w5.inodes[j]? = some d ∧ d.mode = d0.mode ∧ d.data.length = n ∧
      (n = src.data.length → d.data = src.data) := by
  obtain ⟨f, hf, _, _, hw4⟩ := mmap_some w3 w4 _ fin page bi h4
  rw [hfin] at hf
  have hfi : f = ⟨i, 0, true, false⟩ := by simp at hf; exact hf.symm
  subst hfi
  obtain ⟨k, g, nd, _, hg, _, hnd, hav, hn, hw5⟩ := write_some w4 w5 fout bi _ max n h5
  have hfds4 : w4.fd? fout = w3.fd? fout := by rw [hw4]; rfl
  rw [hfds4, hfout] at hg
  have hgj : g = ⟨j, 0, false, true⟩ := by simp at hg; exact hg.symm
  subst hgj
  have hin4 : w4.inodes = w3.inodes := by rw [hw4]
  simp only at hnd
  rw [hin4, hd0] at hnd
  have hnd2 : nd = d0 := by simp at hnd; exact hnd.symm
  subst hnd2
  have hj : j < w4.inodes.length := by
    rw [hin4]
    rcases List.getElem?_eq_some_iff.mp hd0 with ⟨hlt, _⟩
    exact hlt
  have hle := readMem_length_le w4 bi src.data.length
  have hnle : n ≤ src.data.length := by
    rw [hn, List.length_take]; omega
  refine ⟨by rw [hw5, hw4], hnle,
    ⟨{ nd with data := overwrite nd.data 0 ((readMem w4 bi src.data.length).take k) }, ?_, rfl,
      ?_, ?_⟩⟩
  · rw [hw5]
    simp [List.getElem?_set, hj]
  · simp only [hdata, overwrite_nil_zero]
    exact hn.symm
  · intro hfull
    simp only [hdata, overwrite_nil_zero]
    have hlen : (readMem w4 bi src.data.length).length = src.data.length := by
      rw [hn, List.length_take] at hfull; omega
    have htake : (readMem w4 bi src.data.length).take k = readMem w4 bi src.data.length := by
      apply List.take_of_length_le
      rw [hn, List.length_take] at hfull; omega
    rw [htake]
    by_cases hN : src.data.length = 0
    · have h1 : src.data = [] := List.length_eq_zero.mp hN
      have h2 : readMem w4 bi src.data.length = [] := by
        apply List.length_eq_zero.mp; rw [hlen]; exact hN
      rw [h2, h1]
    · have hpos : 0 < src.data.length := Nat.pos_of_ne_zero hN
      by_cases hij : i = j
      · exfalso
        subst hij
        have hr := readMem_fresh w3 bi src.data.length i w3.maps nd hpos hd0
        rw [← hw4] at hr
        rw [hr, hdata] at hlen
        simp [padLen_zero] at hlen
        omega
      · have hr := readMem_fresh w3 bi src.data.length i w3.maps src hpos (hsrc hij)
        rw [← hw4] at hr
        rw [hr]
        simp

theorem bail_ret (s : Sys) (fin fout bi : Int) (st : Stat) (ret : Int) :
    (bail s fin fout bi st ret).2 = ret := rfl

theorem events_of_calls3 (evs : List Event) (a b c : Call)
    (h : evs.map Event.call = [a, b, c]) :
    ∃ r1 r2 r3, evs = [⟨a, r1⟩, ⟨b, r2⟩, ⟨c, r3⟩] := by
  rcases evs with _ | ⟨e1, _ | ⟨e2, _ | ⟨e3, _ | ⟨e4, t⟩⟩⟩⟩
  · simp at h
  · simp at h
  · simp at h
  · simp at h
    obtain ⟨h1, h2, h3⟩ := h
    refine ⟨e1.ret, e2.ret, e3.ret, ?_⟩
    rw [← h1, ← h2, ← h3]
  · simp at h

/-- Every call of the cleanup code is a `close` or a `munmap`. -/
theorem bail_calls_release (evs : List Event) (fin fout bi : Int) (len : Nat)
    (hev : evs.map Event.call =
      (if fin ≠ -1 then [Call.close fin] else []) ++
      (if fout ≠ -1 then [Call.close fout] else []) ++
      (if bi ≠ MAP_FAILED then [Call.munmap bi len] else []))
    (e : Event) (he : e ∈ evs) : isRelease e.call = true := by
  have hm : e.call ∈ evs.map Event.call := List.mem_map_of_mem _ he
  rw [hev] at hm
  simp only [List.mem_append] at hm
  rcases hm with (hm | hm) | hm
  · split at hm
    · simp at hm; rw [hm]; rfl
    · simp at hm
  · split at hm
    · simp at hm; rw [hm]; rfl
    · simp at hm
  · split at hm
    · simp at hm; rw [hm]; rfl
    · simp at hm

/-- The state reached once the source is open and its metadata is read. -/
theorem stat_facts (w w1 : World) (inp : Option String) (e1 e2 : Bool) (fin : Nat) (st : Stat)
    (h1 : open_core w inp O_RDONLY 0 e1 = some (w1, fin))
    (h2 : fstat_core w1 fin e2 = some st) :
    ∃ i src, w.file inp = some src ∧ w.inodes[i]? = some src ∧
      st = ⟨src.mode, (src.data.length : Int)⟩ ∧ src.data.length < 2 ^ 63 ∧
      w1.inodes = w.inodes ∧ w1.names = w.names ∧ w1.fd? fin = some ⟨i, 0, true, false⟩ := by
  obtain ⟨p, i, src, hp, hl, hi, hw1, hfin⟩ := open_rd_some w w1 inp e1 fin h1
  obtain ⟨f, n, hf, hn, hlen, hst⟩ := fstat_some w1 fin e2 st h2
  have hfd1 : w1.fd? fin = some ⟨i, 0, true, false⟩ := by
    rw [fd?_natCast, hw1, hfin]
    simp only
    rw [allocFd_get]; rfl
  rw [hfd1] at hf
  have hfi : f = ⟨i, 0, true, false⟩ := by
    simp at hf; exact hf.symm
  have hinodes1 : w1.inodes = w.inodes := by rw [hw1]
  have hn2 : n = src := by
    rw [hfi, hinodes1] at hn
    simp only at hn
    rw [hi] at hn
    simp at hn; exact hn.symm
  subst hn2
  refine ⟨i, n, ?_, hi, hst, hlen, hinodes1, by rw [hw1], hfd1⟩
  simp [World.file, hp, hl, hi]

/-- The bits of `st_mode & 0777`. -/
theorem mode_mask_bits (x : Nat) :
    x &&& 0o777 < 512 ∧ (∀ i, i < 9 → (x &&& 0o777).testBit i = x.testBit i) ∧
      (∀ i, 9 ≤ i → (x &&& 0o777).testBit i = false) := by
  have h511 : (0o777 : Nat) = 2 ^ 9 - 1 := by norm_num
  refine ⟨?_, ?_, ?_⟩
  · have h := Nat.and_lt_two_pow x (show (0o777 : Nat) < 2 ^ 9 by norm_num)
    have h2 : (2 : Nat) ^ 9 = 512 := by norm_num
    omega
  · intro i hi
    rw [Nat.testBit_and, h511, Nat.testBit_two_pow_sub_one]
    simp [hi]
  · intro i hi
    rw [Nat.testBit_and, h511, Nat.testBit_two_pow_sub_one]
    have : ¬ i < 9 := by omega
    simp [this]

theorem newEvents_append (s : Sys) (w : World) (evs : List Event) :
    newEvents s ⟨w, s.trace ++ evs⟩ = evs := by
  simp [newEvents]

/-- The value `copy_file` returns is 0 or 1. -/
theorem copy_file_ret_zero_or_one (k : Kernel) (u : Locals) (s : Sys)
    (inp out : Option String) :
    (copy_file k u s inp out).2 = 0 ∨ (copy_file k u s inp out).2 = 1 := by
  rcases copy_file_cases k u s inp out with
    ⟨_, hc⟩ | ⟨w1, fin, h1, ⟨_, hc⟩ | ⟨st, h2, ⟨_, hc⟩ | ⟨w3, fout, h3, ⟨_, hc⟩ |
      ⟨w4, bi, h4, ⟨_, hc⟩ | ⟨w5, n, h5, hc⟩⟩⟩⟩⟩
  · rw [hc]; exact Or.inl rfl
  · rw [hc, bail_ret]; exact Or.inl rfl
  · rw [hc, bail_ret]; exact Or.inl rfl
  · rw [hc, bail_ret]; exact Or.inl rfl
  · rw [hc, bail_ret]; exact Or.inl rfl
  · rw [hc, bail_ret]
    by_cases hn : (n : Int) = st.st_size
    · rw [if_pos hn]; exact Or.inr rfl
    · rw [if_neg hn]; exact Or.inl rfl

theorem mmap_none (w : World) (len : Nat) (fd : Int) (page : Option Nat) (f : OpenFile)
    (hf : w.fd? fd = some f) (hr : f.rd = true)
    (h : mmap_core w len fd 0 page = none) :
    (len = 0 ∧ w.mmapZeroLen = false) ∨ page = none := by
  unfold mmap_core at h
  by_cases hz : len = 0 ∧ w.mmapZeroLen = false
  · exact Or.inl hz
  · right
    cases page with
    | none => rfl
    | some p => simp [hz, hf, hr] at h

theorem mmap_some_page (w w1 : World) (len : Nat) (fd : Int) (page : Option Nat) (a : Nat)
    (h : mmap_core w len fd 0 page = some (w1, a)) : page ≠ none := by
  intro hp
  subst hp
  unfold mmap_core at h
  by_cases hz : len = 0 ∧ w.mmapZeroLen = false
  · simp [hz] at h
  · cases hf : w.fd? fd with
    | none => simp [hz, hf] at h
    | some f =>
      cases hr : f.rd with
      | false => simp [hz, hf, hr] at h
      | true => simp [hz, hf, hr] at h

theorem write_none_zero (w : World) (fd buf : Int) (max : Option Nat) (f : OpenFile)
    (nd : Inode) (hf : w.fd? fd = some f) (hw : f.wr = true)
    (hn : w.inodes[f.ino]? = some nd) (h : write_core w fd buf 0 max = none) : max = none := by
  unfold write_core at h
  cases max with
  | none => rfl
  | some k => simp [hf, hw, hn] at h

/-- The low nine bits of the mode of a file created with the requested mode
`x & 0777` under the file creation mask `um`. -/
theorem created_mode_bits (x um i : Nat) (hi : i < 9) :
    (S_IFREG ||| createMode (x &&& 0o777) um).testBit i = (x.testBit i && !um.testBit i) := by
  have c1 : (0o777 : Nat).testBit i = true := by
    have h511 : (0o777 : Nat) = 2 ^ 9 - 1 := by norm_num
    rw [h511, Nat.testBit_two_pow_sub_one]
    simp [hi]
  have c2 : (0o7777 : Nat).testBit i = true := by
    have h4095 : (0o7777 : Nat) = 2 ^ 12 - 1 := by norm_num
    rw [h4095, Nat.testBit_two_pow_sub_one]
    have h1 : i < 12 := by omega
    simp [h1]
  have c3 : S_IFREG.testBit i = false := by
    have hreg : S_IFREG = 2 ^ 15 := by decide
    rw [hreg, Nat.testBit_two_pow]
    have h2 : ¬ (15 = i) := by omega
    simp [h2]
  simp only [createMode, Nat.testBit_or, Nat.testBit_xor, Nat.testBit_and, c1, c2, c3]
  cases x.testBit i <;> cases um.testBit i <;> rfl

theorem releases_append (a b : List Event) : releases (a ++ b) = releases a ++ releases b := by
  simp [releases]

theorem releases_of_all (evs : List Event) (h : ∀ e ∈ evs, isRelease e.call = true) :
    releases evs = evs.map Event.call := by
  unfold releases
  apply List.filter_eq_self.mpr
  intro c hc
  obtain ⟨e, he, rfl⟩ := List.mem_map.mp hc
  exact h e he

/-- The events of a run of `copy_file`: first the open of the source, then calls none
of which is a `puts`; the release calls among them are those of the cleanup code. -/
theorem copy_file_shape (k : Kernel) (u : Locals) (s : Sys) (inp out : Option String) :
    ∃ (fin : Int) (rest : List Event),
      newEvents s (copy_file k u s inp out).1 = ⟨Call.open inp O_RDONLY 0, fin⟩ :: rest ∧
      (copy_file k u s inp out).1.trace =
        s.trace ++ ⟨Call.open inp O_RDONLY 0, fin⟩ :: rest ∧
      (∀ e ∈ rest, ∀ str, e.call ≠ Call.puts str) ∧
      (∀ e ∈ rest, ∀ p m, e.call ≠ Call.open p O_RDONLY m) := by
  have hfl : ¬ (O_WRONLY ||| O_CREAT ||| O_TRUNC = O_RDONLY) := by decide
  have hrel : ∀ (evs : List Event) (a b c : Int) (len : Nat),
      evs.map Event.call =
        (if a ≠ -1 then [Call.close a] else []) ++
        (if b ≠ -1 then [Call.close b] else []) ++
        (if c ≠ MAP_FAILED then [Call.munmap c len] else []) →
      (∀ e ∈ evs, ∀ str, e.call ≠ Call.puts str) ∧
      (∀ e ∈ evs, ∀ p m, e.call ≠ Call.open p O_RDONLY m) := by
    intro evs a b c len hev
    constructor
    · intro e he str hcall
      have := bail_calls_release evs a b c len hev e he
      rw [hcall] at this
      simp [isRelease] at this
    · intro e he p m hcall
      have := bail_calls_release evs a b c len hev e he
      rw [hcall] at this
      simp [isRelease] at this
  rcases copy_file_cases k u s inp out with
    ⟨_, hc⟩ | ⟨w1, fin, h1, ⟨_, hc⟩ | ⟨st, h2, ⟨_, hc⟩ | ⟨w3, fout, h3, ⟨_, hc⟩ |
      ⟨w4, bi, h4, ⟨_, hc⟩ | ⟨w5, n, h5, hc⟩⟩⟩⟩⟩
  · refine ⟨-1, [], ?_, ?_, by simp, by simp⟩
    · rw [hc, newEvents_append]
    · rw [hc]
  · obtain ⟨wf, evs, hb, hne, hev, _⟩ := bail_events s w1 _ fin u.fout u.bi u.st _ _ hc
    obtain ⟨hp, ho⟩ := hrel evs _ _ _ _ hev
    refine ⟨fin, [⟨Call.fstat fin, -1⟩] ++ evs,
      by rw [hne]; rfl, by rw [hb]; rfl, ?_, ?_⟩
    · intro e he str
      simp only [List.cons_append, List.nil_append, List.mem_cons] at he
      rcases he with he | he
      · rw [he]; simp
      · exact hp e he str
    · intro e he p m
      simp only [List.cons_append, List.nil_append, List.mem_cons] at he
      rcases he with he | he
      · rw [he]; simp
      · exact ho e he p m
  · obtain ⟨wf, evs, hb, hne, hev, _⟩ := bail_events s w1 _ fin (-1) u.bi st _ _ hc
    obtain ⟨hp, ho⟩ := hrel evs _ _ _ _ hev
    refine ⟨fin, [⟨Call.fstat fin, 0⟩, ⟨Call.open out (O_WRONLY ||| O_CREAT ||| O_TRUNC) (st.st_mode &&& 0o777), -1⟩] ++ evs,
      by rw [hne]; rfl, by rw [hb]; rfl, ?_, ?_⟩
    · intro e he str
      simp only [List.cons_append, List.nil_append, List.mem_cons] at he
      rcases he with he | he | he
      · rw [he]; simp
      · rw [he]; simp
      · exact hp e he str
    · intro e he p m
      simp only [List.cons_append, List.nil_append, List.mem_cons] at he
      rcases he with he | he | he
      · rw [he]; simp
      · rw [he]; simp [hfl]
      · exact ho e he p m
  · obtain ⟨wf, evs, hb, hne, hev, _⟩ := bail_events s w3 _ fin fout MAP_FAILED st _ _ hc
    obtain ⟨hp, ho⟩ := hrel evs _ _ _ _ hev
    refine ⟨fin, [⟨Call.fstat fin, 0⟩, ⟨Call.open out (O_WRONLY ||| O_CREAT ||| O_TRUNC) (st.st_mode &&& 0o777), fout⟩, ⟨Call.mmap 0 (toSizeT st.st_size) PROT_READ MAP_PRIVATE fin 0, MAP_FAILED⟩] ++ evs,
      by rw [hne]; rfl, by rw [hb]; rfl, ?_, ?_⟩
    · intro e he str
      simp only [List.cons_append, List.nil_append, List.mem_cons] at he
      rcases he with he | he | he | he
      · rw [he]; simp
      · rw [he]; simp
      · rw [he]; simp
      · exact hp e he str
    · intro e he p m
      simp only [List.cons_append, List.nil_append, List.mem_cons] at he
      rcases he with he | he | he | he
      · rw [he]; simp
      · rw [he]; simp [hfl]
      · rw [he]; simp
      · exact ho e he p m
  · obtain ⟨wf, evs, hb, hne, hev, _⟩ := bail_events s w4 _ fin fout bi st _ _ hc
    obtain ⟨hp, ho⟩ := hrel evs _ _ _ _ hev
    refine ⟨fin, [⟨Call.fstat fin, 0⟩, ⟨Call.open out (O_WRONLY ||| O_CREAT ||| O_TRUNC) (st.st_mode &&& 0o777), fout⟩, ⟨Call.mmap 0 (toSizeT st.st_size) PROT_READ MAP_PRIVATE fin 0, bi⟩, ⟨Call.write fout bi (toSizeT st.st_size), -1⟩] ++ evs,
      by rw [hne]; rfl, by rw [hb]; rfl, ?_, ?_⟩
    · intro e he str
      simp only [List.cons_append, List.nil_append, List.mem_cons] at he
      rcases he with he | he | he | he | he
      · rw [he]; simp
      · rw [he]; simp
      · rw [he]; simp
      · rw [he]; simp
      · exact hp e he str
    · intro e he p m
      simp only [List.cons_append, List.nil_append, List.mem_cons] at he
      rcases he with he | he | he | he | he
      · rw [he]; simp
      · rw [he]; simp [hfl]
      · rw [he]; simp
      · rw [he]; simp
      · exact ho e he p m
  · obtain ⟨wf, evs, hb, hne, hev, _⟩ := bail_events s w5 _ fin fout bi st _ _ hc
    obtain ⟨hp, ho⟩ := hrel evs _ _ _ _ hev
    refine ⟨fin, [⟨Call.fstat fin, 0⟩, ⟨Call.open out (O_WRONLY ||| O_CREAT ||| O_TRUNC) (st.st_mode &&& 0o777), fout⟩, ⟨Call.mmap 0 (toSizeT st.st_size) PROT_READ MAP_PRIVATE fin 0, bi⟩, ⟨Call.write fout bi (toSizeT st.st_size), n⟩] ++ evs,
      by rw [hne]; rfl, by rw [hb]; rfl, ?_, ?_⟩
    · intro e he str
      simp only [List.cons_append, List.nil_append, List.mem_cons] at he
      rcases he with he | he | he | he | he
      · rw [he]; simp
      · rw [he]; simp
      · rw [he]; simp
      · rw [he]; simp
      · exact hp e he str
    · intro e he p m
      simp only [List.cons_append, List.nil_append, List.mem_cons] at he
      rcases he with he | he | he | he | he
      · rw [he]; simp
      · rw [he]; simp [hfl]
      · rw [he]; simp
      · rw [he]; simp
      · exact ho e he p m

theorem releases_bail (pre evs : List Event) (a b c : Int) (len : Nat)
    (hpre : releases pre = [])
    (hev : evs.map Event.call =
      (if a ≠ -1 then [Call.close a] else []) ++
      (if b ≠ -1 then [Call.close b] else []) ++
      (if c ≠ MAP_FAILED then [Call.munmap c len] else [])) :
    releases (pre ++ evs) =
      (if a ≠ -1 then [Call.close a] else []) ++
      (if b ≠ -1 then [Call.close b] else []) ++
      (if c ≠ MAP_FAILED then [Call.munmap c len] else []) := by
  rw [releases_append, hpre, List.nil_append,
    releases_of_all evs (bail_calls_release evs a b c len hev), hev]

/-- The value `copy_file` returns, in terms of the outcomes of its five calls: it is 1
exactly when each call succeeds in the state its predecessors left and the `write`
transfers `st_size` bytes. -/
theorem copy_file_ret_calls (k : Kernel) (u : Locals) (s : Sys) (inp out : Option String) :
    (copy_file k u s inp out).2 = 1 ↔
      ∃ (w1 : World) (fin : Nat) (st : Stat) (w3 : World) (fout : Nat) (w4 : World) (bi : Nat)
        (w5 : World) (n : Nat),
        open_core s.world inp O_RDONLY 0 k.open_in_err = some (w1, fin) ∧
        fstat_core w1 fin k.fstat_err = some st ∧
        open_core w1 out (O_WRONLY ||| O_CREAT ||| O_TRUNC) (st.st_mode &&& 0o777)
          k.open_out_err = some (w3, fout) ∧
        mmap_core w3 (toSizeT st.st_size) fin 0 k.mmap_page = some (w4, bi) ∧
        write_core w4 fout bi (toSizeT st.st_size) k.write_max = some (w5, n) ∧
        (n : Int) = st.st_size := by
  rcases copy_file_cases k u s inp out with
    ⟨h1, hc⟩ | ⟨w1, fin, h1, ⟨h2, hc⟩ | ⟨st, h2, ⟨h3, hc⟩ | ⟨w3, fout, h3, ⟨h4, hc⟩ |
      ⟨w4, bi, h4, ⟨h5, hc⟩ | ⟨w5, n, h5, hc⟩⟩⟩⟩⟩
  · rw [hc]
    refine ⟨fun h => by simp at h, ?_⟩
    rintro ⟨w1', fin', st', w3', fout', w4', bi', w5', n', g1, _⟩
    rw [h1] at g1
    simp at g1
  · rw [hc, bail_ret]
    refine ⟨fun h => by simp at h, ?_⟩
    rintro ⟨w1', fin', st', w3', fout', w4', bi', w5', n', g1, g2, _⟩
    rw [h1] at g1
    simp only [Option.some.injEq, Prod.mk.injEq] at g1
    rw [← g1.1, ← g1.2, h2] at g2
    simp at g2
  · rw [hc, bail_ret]
    refine ⟨fun h => by simp at h, ?_⟩
    rintro ⟨w1', fin', st', w3', fout', w4', bi', w5', n', g1, g2, g3, _⟩
    rw [h1] at g1
    simp only [Option.some.injEq, Prod.mk.injEq] at g1
    rw [← g1.1, ← g1.2, h2] at g2
    simp only [Option.some.injEq] at g2
    rw [← g1.1, ← g2, h3] at g3
    simp at g3
  · rw [hc, bail_ret]
    refine ⟨fun h => by simp at h, ?_⟩
    rintro ⟨w1', fin', st', w3', fout', w4', bi', w5', n', g1, g2, g3, g4, _⟩
    rw [h1] at g1
    simp only [Option.some.injEq, Prod.mk.injEq] at g1
    rw [← g1.1, ← g1.2, h2] at g2
    simp only [Option.some.injEq] at g2
    rw [← g1.1, ← g2, h3] at g3
    simp only [Option.some.injEq, Prod.mk.injEq] at g3
    rw [← g3.1, ← g2, ← g1.2, h4] at g4
    simp at g4
  · rw [hc, bail_ret]
    refine ⟨fun h => by simp at h, ?_⟩
    rintro ⟨w1', fin', st', w3', fout', w4', bi', w5', n', g1, g2, g3, g4, g5, _⟩
    rw [h1] at g1
    simp only [Option.some.injEq, Prod.mk.injEq] at g1
    rw [← g1.1, ← g1.2, h2] at g2
    simp only [Option.some.injEq] at g2
    rw [← g1.1, ← g2, h3] at g3
    simp only [Option.some.injEq, Prod.mk.injEq] at g3
    rw [← g3.1, ← g2, ← g1.2, h4] at g4
    simp only [Option.some.injEq, Prod.mk.injEq] at g4
    rw [← g4.1, ← g3.2, ← g4.2, ← g2, h5] at g5
    simp at g5
  · rw [hc, bail_ret]
    constructor
    · intro h
      have hn : (n : Int) = st.st_size := by
        by_contra hne
        simp [hne] at h
      exact ⟨w1, fin, st, w3, fout, w4, bi, w5, n, h1, h2, h3, h4, h5, hn⟩
    · rintro ⟨w1', fin', st', w3', fout', w4', bi', w5', n', g1, g2, g3, g4, g5, g6⟩
      rw [h1] at g1
      simp only [Option.some.injEq, Prod.mk.injEq] at g1
      rw [← g1.1, ← g1.2, h2] at g2
      simp only [Option.some.injEq] at g2
      rw [← g1.1, ← g2, h3] at g3
      simp only [Option.some.injEq, Prod.mk.injEq] at g3
      rw [← g3.1, ← g2, ← g1.2, h4] at g4
      simp only [Option.some.injEq, Prod.mk.injEq] at g4
      rw [← g4.1, ← g3.2, ← g4.2, ← g2, h5] at g5
      simp only [Option.some.injEq, Prod.mk.injEq] at g5
      rw [← g5.2, ← g2] at g6
      rw [if_pos g6]

/-- The value `copy_file` returns, read off the trace of the run. -/
theorem copy_file_ret_trace (k : Kernel) (u : Locals) (s : Sys) (inp out : Option String) :
    ((copy_file k u s inp out).2 = 0 ∨ (copy_file k u s inp out).2 = 1) ∧
    ((copy_file k u s inp out).2 = 1 ↔
      ∃ (fin fout bi : Int) (mode len : Nat) (r1 r2 r3 : Int) (src : Inode),
        fin ≠ -1 ∧ fout ≠ -1 ∧ bi ≠ MAP_FAILED ∧
        s.world.file inp = some src ∧ len = src.data.length ∧
        (copy_file k u s inp out).1.trace = s.trace ++
          [⟨Call.open inp O_RDONLY 0, fin⟩, ⟨Call.fstat fin, 0⟩,
           ⟨Call.open out (O_WRONLY ||| O_CREAT ||| O_TRUNC) mode, fout⟩,
           ⟨Call.mmap 0 len PROT_READ MAP_PRIVATE fin 0, bi⟩,
           ⟨Call.write fout bi len, (len : Int)⟩,
           ⟨Call.close fin, r1⟩, ⟨Call.close fout, r2⟩, ⟨Call.munmap bi len, r3⟩]) := by
  rcases copy_file_cases k u s inp out with
    ⟨_, hc⟩ | ⟨w1, fin, h1, ⟨_, hc⟩ | ⟨st, h2, ⟨_, hc⟩ | ⟨w3, fout, h3, ⟨_, hc⟩ |
      ⟨w4, bi, h4, ⟨_, hc⟩ | ⟨w5, n, h5, hc⟩⟩⟩⟩⟩
  · rw [hc]
    refine ⟨Or.inl rfl, ⟨fun h => by simp at h, ?_⟩⟩
    rintro ⟨fin, fout, bi, mode, len, r1, r2, r3, src, hfin, _, _, _, _, ht⟩
    simp at ht
  · obtain ⟨wf, evs, hb, _, hev, _⟩ := bail_events s w1 _ fin u.fout u.bi u.st _ _ hc
    rw [hb]
    refine ⟨Or.inl rfl, ⟨fun h => by simp at h, ?_⟩⟩
    rintro ⟨fin', fout, bi, mode, len, r1, r2, r3, src, hfin, _, _, _, _, ht⟩
    simp at ht
  · obtain ⟨wf, evs, hb, _, hev, _⟩ := bail_events s w1 _ fin (-1) u.bi st _ _ hc
    rw [hb]
    refine ⟨Or.inl rfl, ⟨fun h => by simp at h, ?_⟩⟩
    rintro ⟨fin', fout, bi, mode, len, r1, r2, r3, src, hfin, hfout, _, _, _, ht⟩
    simp only [List.append_assoc, List.singleton_append, List.cons_append, List.nil_append,
      List.append_cancel_left_eq, List.cons.injEq, Event.mk.injEq] at ht
    exact (hfout ht.2.2.1.2.symm).elim
  · obtain ⟨wf, evs, hb, _, hev, _⟩ := bail_events s w3 _ fin fout MAP_FAILED st _ _ hc
    rw [hb]
    refine ⟨Or.inl rfl, ⟨fun h => by simp at h, ?_⟩⟩
    rintro ⟨fin', fout', bi, mode, len, r1, r2, r3, src, hfin, hfout, hbi, _, _, ht⟩
    simp only [List.append_assoc, List.singleton_append, List.cons_append, List.nil_append,
      List.append_cancel_left_eq, List.cons.injEq, Event.mk.injEq] at ht
    exact (hbi ht.2.2.2.1.2.symm).elim
  · obtain ⟨wf, evs, hb, _, hev, _⟩ := bail_events s w4 _ fin fout bi st _ _ hc
    rw [hb]
    refine ⟨Or.inl rfl, ⟨fun h => by simp at h, ?_⟩⟩
    rintro ⟨fin', fout', bi', mode, len, r1, r2, r3, src, hfin, hfout, hbi, _, _, ht⟩
    simp only [List.append_assoc, List.singleton_append, List.cons_append, List.nil_append,
      List.append_cancel_left_eq, List.cons.injEq, Event.mk.injEq] at ht
    have := ht.2.2.2.2.1.2
    omega
  · have hsz := (fstat_size_nonneg w1 fin _ st h2).2
    obtain ⟨i, src, q, j, d0, hsrc, hi, hst, hlen, _⟩ :=
      opened_facts s.world w1 w3 inp out _ _ _ fin fout st h1 h2 h3
    have hsz2 : toSizeT st.st_size = src.data.length := by
      rw [hst]; exact toSizeT_natCast _ hlen
    obtain ⟨wf, evs, hb, _, hev, _⟩ := bail_events s w5 _ fin fout bi st _ _ hc
    rw [hb]
    by_cases hn : (n : Int) = st.st_size
    · rw [if_pos hn]
      refine ⟨Or.inr rfl, ⟨fun _ => ?_, fun _ => rfl⟩⟩
      have hfin := natCast_ne_neg_one fin
      have hfout := natCast_ne_neg_one fout
      have hbi : (bi : Int) ≠ MAP_FAILED := natCast_ne_neg_one bi
      rw [if_pos hfin, if_pos hfout, if_pos hbi] at hev
      obtain ⟨r1, r2, r3, hevs⟩ := events_of_calls3 evs _ _ _ hev
      refine ⟨fin, fout, bi, st.st_mode &&& 0o777, toSizeT st.st_size, r1, r2, r3,
        src, hfin, hfout, hbi, hsrc, hsz2, ?_⟩
      simp only [List.append_assoc, List.singleton_append, List.cons_append, List.nil_append]
      rw [hevs, hsz, hn]
    · rw [if_neg hn]
      refine ⟨Or.inl rfl, ⟨fun h => by simp at h, ?_⟩⟩
      rintro ⟨fin', fout', bi', mode, len, r1, r2, r3, src', hfin, hfout, hbi, _, _, ht⟩
      simp only [List.append_assoc, List.singleton_append, List.cons_append, List.nil_append,
        List.append_cancel_left_eq, List.cons.injEq, Event.mk.injEq, Call.write.injEq] at ht
      have h5a := ht.2.2.2.2.1
      exfalso
      apply hn
      rw [← hsz, h5a.1.2.2, h5a.2]

/-! ## The claims -/

/-- C1: if `copy_file(in, out)` returns 1, the file the destination path names
afterwards has the length and the bytes that the file named by the source path had
before the call.  The two paths may name the same file. -/
theorem copy_file_success_copies (k : Kernel) (u : Locals) (s : Sys)
    (inp out : Option String) (h : (copy_file k u s inp out).2 = 1) :
    ∃ src dst, s.world.file inp = some src ∧
      (copy_file k u s inp out).1.world.file out = some dst ∧
      dst.data.length = src.data.length ∧ dst.data = src.data := by
  rcases copy_file_cases k u s inp out with
    ⟨_, hc⟩ | ⟨w1, fin, h1, ⟨_, hc⟩ | ⟨st, h2, ⟨_, hc⟩ | ⟨w3, fout, h3, ⟨_, hc⟩ |
      ⟨w4, bi, h4, ⟨_, hc⟩ | ⟨w5, n, h5, hc⟩⟩⟩⟩⟩
  · rw [hc] at h; simp at h
  · rw [hc, bail_ret] at h; simp at h
  · rw [hc, bail_ret] at h; simp at h
  · rw [hc, bail_ret] at h; simp at h
  · rw [hc, bail_ret] at h; simp at h
  · rw [hc, bail_ret] at h
    have hn : (n : Int) = st.st_size := by
      by_contra hne
      simp [hne] at h
    obtain ⟨i, src, q, j, d0, hsrc, hi, hst, hlen, hq, hnm, hd0, hdata, hoth, hfin, hfout, _, _, _⟩
      := opened_facts s.world w1 w3 inp out _ _ _ fin fout st h1 h2 h3
    have hsz : toSizeT st.st_size = src.data.length := by
      rw [hst]; exact toSizeT_natCast _ hlen
    rw [hsz] at h4 h5
    obtain ⟨hnames, _, d, hd, _, hdl, hfull⟩ :=
      written_facts w3 w4 w5 fin fout bi n i j src d0 _ _ hfin hfout hd0 hdata hoth h4 h5
    have hnl : n = src.data.length := by
      rw [hst] at hn
      simp only at hn
      exact_mod_cast hn
    obtain ⟨wf, evs, hb, _, _, hbi, hbn, _⟩ := bail_events s w5 _ fin fout bi st _ _ hc
    refine ⟨src, d, hsrc, ?_, ?_, hfull hnl⟩
    · rw [hb]
      simp only [World.file, hq]
      rw [hbn, hbi, hnames, hnm]
      exact hd
    · rw [hdl, hnl]

/-- A successful copy of `src.txt` to the new path `dst.txt`. -/
theorem copy_file_success_copies_witness :
    (copy_file kernelOk localsDirty sys0 (some "src.txt") (some "dst.txt")).2 = 1 ∧
    ∃ src dst, sys0.world.file (some "src.txt") = some src ∧
      (copy_file kernelOk localsDirty sys0 (some "src.txt") (some "dst.txt")).1.world.file
        (some "dst.txt") = some dst ∧
      dst.data.length = src.data.length ∧ dst.data = src.data :=
  ⟨by decide, copy_file_success_copies kernelOk localsDirty sys0 (some "src.txt")
    (some "dst.txt") (by decide)⟩

/-- C2: `copy_file` returns 0 or 1.  It returns 1 if and only if the open of the
source, `fstat`, the create/truncate open of the destination and `mmap` each succeed
in the state the calls before them left and the single `write` transfers exactly
`st_size` bytes; whenever one of them fails, or the write is short or fails, it
returns 0.  Read off the trace, a return of 1 is the run: source open returns a
descriptor, `fstat` returns 0, destination open returns a descriptor, `mmap` returns
an address other than `MAP_FAILED`, `write` of `len` bytes (the source length)
returns `len`, then the cleanup calls. -/
theorem copy_file_ret_iff (k : Kernel) (u : Locals) (s : Sys) (inp out : Option String) :
    ((copy_file k u s inp out).2 = 0 ∨ (copy_file k u s inp out).2 = 1) ∧
    ((copy_file k u s inp out).2 = 1 ↔
      ∃ (w1 : World) (fin : Nat) (st : Stat) (w3 : World) (fout : Nat) (w4 : World) (bi : Nat)
        (w5 : World) (n : Nat),
        open_core s.world inp O_RDONLY 0 k.open_in_err = some (w1, fin) ∧
        fstat_core w1 fin k.fstat_err = some st ∧
        open_core w1 out (O_WRONLY ||| O_CREAT ||| O_TRUNC) (st.st_mode &&& 0o777)
          k.open_out_err = some (w3, fout) ∧
        mmap_core w3 (toSizeT st.st_size) fin 0 k.mmap_page = some (w4, bi) ∧
        write_core w4 fout bi (toSizeT st.st_size) k.write_max = some (w5, n) ∧
        (n : Int) = st.st_size) ∧
    ((copy_file k u s inp out).2 = 1 ↔
      ∃ (fin fout bi : Int) (mode len : Nat) (r1 r2 r3 : Int) (src : Inode),
        fin ≠ -1 ∧ fout ≠ -1 ∧ bi ≠ MAP_FAILED ∧
        s.world.file inp = some src ∧ len = src.data.length ∧
        (copy_file k u s inp out).1.trace = s.trace ++
          [⟨Call.open inp O_RDONLY 0, fin⟩, ⟨Call.fstat fin, 0⟩,
           ⟨Call.open out (O_WRONLY ||| O_CREAT ||| O_TRUNC) mode, fout⟩,
           ⟨Call.mmap 0 len PROT_READ MAP_PRIVATE fin 0, bi⟩,
           ⟨Call.write fout bi len, (len : Int)⟩,
           ⟨Call.close fin, r1⟩, ⟨Call.close fout, r2⟩, ⟨Call.munmap bi len, r3⟩]) :=
  ⟨copy_file_ret_zero_or_one k u s inp out, copy_file_ret_calls k u s inp out,
    (copy_file_ret_trace k u s inp out).2⟩

/-- The copy of `src.txt` to `dst.txt` with no call failing: all five calls succeed,
the write transfers the 11 bytes, and the result is 1; with a write of at most 5
bytes the result is 0. -/
theorem copy_file_ret_iff_witness :
    (copy_file kernelOk localsDirty sys0 (some "src.txt") (some "dst.txt")).2 = 1 ∧
    (∃ (w1 : World) (fin : Nat) (st : Stat) (w3 : World) (fout : Nat) (w4 : World) (bi : Nat)
        (w5 : World) (n : Nat),
        open_core sys0.world (some "src.txt") O_RDONLY 0 kernelOk.open_in_err = some (w1, fin) ∧
        fstat_core w1 fin kernelOk.fstat_err = some st ∧
        open_core w1 (some "dst.txt") (O_WRONLY ||| O_CREAT ||| O_TRUNC) (st.st_mode &&& 0o777)
          kernelOk.open_out_err = some (w3, fout) ∧
        mmap_core w3 (toSizeT st.st_size) fin 0 kernelOk.mmap_page = some (w4, bi) ∧
        write_core w4 fout bi (toSizeT st.st_size) kernelOk.write_max = some (w5, n) ∧
        (n : Int) = st.st_size) ∧
    (copy_file { kernelOk with write_max := some 5 } localsDirty sys0 (some "src.txt")
      (some "dst.txt")).2 = 0 :=
  ⟨(copy_file_ret_iff kernelOk localsDirty sys0 (some "src.txt") (some "dst.txt")).2.1.mpr
     ⟨_, _, _, _, _, _, _, _, _, rfl, rfl, rfl, rfl, rfl, rfl⟩,
   (copy_file_ret_iff kernelOk localsDirty sys0 (some "src.txt") (some "dst.txt")).2.1.mp
     (by decide),
   by decide⟩

/-- C3: when the open of the source path fails, `copy_file` returns 0 and the run
consists of that one call: the world (files, names, descriptors, mappings) is the one
before the call, so no destination is created and an existing one is not truncated. -/
theorem copy_file_source_open_fails (k : Kernel) (u : Locals) (s : Sys)
    (inp out : Option String) (h : (sys_open s inp O_RDONLY 0 k.open_in_err).2 = -1) :
    copy_file k u s inp out = (⟨s.world, s.trace ++ [⟨Call.open inp O_RDONLY 0, -1⟩]⟩, 0) := by
  rcases copy_file_cases k u s inp out with ⟨_, hc⟩ | ⟨w1, fin, h1, _⟩
  · exact hc
  · exfalso
    simp [sys_open, h1] at h

/-- A missing source path, with the existing `old.txt` as destination. -/
theorem copy_file_source_open_fails_witness :
    (sys_open sys0 (some "missing") O_RDONLY 0 kernelOk.open_in_err).2 = -1 ∧
    copy_file kernelOk localsDirty sys0 (some "missing") (some "old.txt") =
      (⟨sys0.world, sys0.trace ++ [⟨Call.open (some "missing") O_RDONLY 0, -1⟩]⟩, 0) :=
  ⟨by decide, copy_file_source_open_fails kernelOk localsDirty sys0 (some "missing")
    (some "old.txt") (by decide)⟩

/-- C4, the code at two failing inputs, with `fout` holding 1 and `bi` holding 8192
when `copy_file` is entered.  When creating the destination is refused, the cleanup
issues `munmap(8192, 11)` although no mapping was made.  When `fstat` fails, it issues
`close(1)` and `munmap(8192, 4096)` although neither a destination descriptor nor a
mapping was acquired, and descriptor 1, open before the call, is closed after it. -/
theorem copy_file_bail_uninitialised :
    (newEvents sys0 (copy_file kernelNoCreate localsDirty sys0 (some "src.txt")
        (some "dst.txt")).1).map Event.call =
      [Call.open (some "src.txt") O_RDONLY 0, Call.fstat 3,
       Call.open (some "dst.txt") (O_WRONLY ||| O_CREAT ||| O_TRUNC) 0o644,
       Call.close 3, Call.munmap 8192 11] ∧
    (newEvents sys0 (copy_file kernelNoStat localsDirty sys0 (some "src.txt")
        (some "dst.txt")).1).map Event.call =
      [Call.open (some "src.txt") O_RDONLY 0, Call.fstat 3,
       Call.close 3, Call.close 1, Call.munmap 8192 4096] ∧
    sys0.world.fd? 1 = some ⟨0, 0, true, true⟩ ∧
    (copy_file kernelNoStat localsDirty sys0 (some "src.txt") (some "dst.txt")).1.world.fd? 1
      = none := by
  decide

/-- C5: every `open` with `O_CREAT` that a run of `copy_file` issues asks for the mode
`st_mode & 0777` of the source file: a value below 512 that agrees with `st_mode` on
bits 0 to 8 and has no higher bit (no setuid, setgid, sticky or file-type bit). -/
theorem copy_file_dest_mode (k : Kernel) (u : Locals) (s : Sys) (inp out : Option String)
    (p : Option String) (fl m : Nat) (r : Int)
    (he : ⟨Call.open p fl m, r⟩ ∈ newEvents s (copy_file k u s inp out).1)
    (hfl : fl &&& O_CREAT ≠ 0) :
    ∃ src, s.world.file inp = some src ∧ m = src.mode &&& 0o777 ∧ m < 512 ∧
      (∀ i, i < 9 → m.testBit i = src.mode.testBit i) ∧
      (∀ i, 9 ≤ i → m.testBit i = false) := by
  have hrd : ¬ (O_RDONLY &&& O_CREAT ≠ 0) := by decide
  have key : ∀ (w1 : World) (fin : Nat) (st : Stat),
      open_core s.world inp O_RDONLY 0 k.open_in_err = some (w1, fin) →
      fstat_core w1 fin k.fstat_err = some st → m = st.st_mode &&& 0o777 →
      ∃ src, s.world.file inp = some src ∧ m = src.mode &&& 0o777 ∧ m < 512 ∧
        (∀ i, i < 9 → m.testBit i = src.mode.testBit i) ∧
        (∀ i, 9 ≤ i → m.testBit i = false) := by
    intro w1 fin st h1 h2 hm
    obtain ⟨i, src, hsrc, _, hst, _⟩ := stat_facts s.world w1 inp _ _ fin st h1 h2
    have hb := mode_mask_bits src.mode
    rw [hst] at hm
    simp only at hm
    rw [hm]
    exact ⟨src, hsrc, rfl, hb.1, hb.2.1, hb.2.2⟩
  rcases copy_file_cases k u s inp out with
    ⟨_, hc⟩ | ⟨w1, fin, h1, ⟨_, hc⟩ | ⟨st, h2, ⟨_, hc⟩ | ⟨w3, fout, h3, ⟨_, hc⟩ |
      ⟨w4, bi, h4, ⟨_, hc⟩ | ⟨w5, n, h5, hc⟩⟩⟩⟩⟩
  · rw [hc, newEvents_append] at he
    simp at he
    rw [he.1.2.1] at hfl
    exact absurd hfl hrd
  · obtain ⟨wf, evs, _, hne, hev, _⟩ := bail_events s w1 _ fin u.fout u.bi u.st _ _ hc
    rw [hne] at he
    simp only [List.mem_append, List.mem_cons, List.mem_singleton, Event.mk.injEq,
      Call.open.injEq, List.not_mem_nil, or_false] at he
    rcases he with (he | he) | he
    · rw [he.1.2.1] at hfl; exact absurd hfl hrd
    · simp at he
    · have := bail_calls_release evs _ _ _ _ hev _ he
      simp [isRelease] at this
  · obtain ⟨wf, evs, _, hne, hev, _⟩ := bail_events s w1 _ fin (-1) u.bi st _ _ hc
    rw [hne] at he
    simp only [List.mem_append, List.mem_cons, List.mem_singleton, Event.mk.injEq,
      Call.open.injEq, List.not_mem_nil, or_false] at he
    rcases he with (he | he | he) | he
    · rw [he.1.2.1] at hfl; exact absurd hfl hrd
    · simp at he
    · exact key w1 fin st h1 h2 he.1.2.2
    · have := bail_calls_release evs _ _ _ _ hev _ he
      simp [isRelease] at this
  · obtain ⟨wf, evs, _, hne, hev, _⟩ := bail_events s w3 _ fin fout MAP_FAILED st _ _ hc
    rw [hne] at he
    simp only [List.mem_append, List.mem_cons, List.mem_singleton, Event.mk.injEq,
      Call.open.injEq, List.not_mem_nil, or_false] at he
    rcases he with (he | he | he | he) | he
    · rw [he.1.2.1] at hfl; exact absurd hfl hrd
    · simp at he
    · exact key w1 fin st h1 h2 he.1.2.2
    · simp at he
    · have := bail_calls_release evs _ _ _ _ hev _ he
      simp [isRelease] at this
  · obtain ⟨wf, evs, _, hne, hev, _⟩ := bail_events s w4 _ fin fout bi st _ _ hc
    rw [hne] at he
    simp only [List.mem_append, List.mem_cons, List.mem_singleton, Event.mk.injEq,
      Call.open.injEq, List.not_mem_nil, or_false] at he
    rcases he with (he | he | he | he | he) | he
    · rw [he.1.2.1] at hfl; exact absurd hfl hrd
    · simp at he
    · exact key w1 fin st h1 h2 he.1.2.2
    · simp at he
    · simp at he
    · have := bail_calls_release evs _ _ _ _ hev _ he
      simp [isRelease] at this
  · obtain ⟨wf, evs, _, hne, hev, _⟩ := bail_events s w5 _ fin fout bi st _ _ hc
    rw [hne] at he
    simp only [List.mem_append, List.mem_cons, List.mem_singleton, Event.mk.injEq,
      Call.open.injEq, List.not_mem_nil, or_false] at he
    rcases he with (he | he | he | he | he) | he
    · rw [he.1.2.1] at hfl; exact absurd hfl hrd
    · simp at he
    · exact key w1 fin st h1 h2 he.1.2.2
    · simp at he
    · simp at he
    · have := bail_calls_release evs _ _ _ _ hev _ he
      simp [isRelease] at this

/-- The copy of `src.txt` (mode 0644) to `dst.txt` asks for mode 0644 = 420. -/
theorem copy_file_dest_mode_witness :
    ∃ src, sys0.world.file (some "src.txt") = some src ∧ 420 = src.mode &&& 0o777 ∧
      420 < 512 ∧ (∀ i, i < 9 → (420 : Nat).testBit i = src.mode.testBit i) ∧
      (∀ i, 9 ≤ i → (420 : Nat).testBit i = false) :=
  copy_file_dest_mode kernelOk localsDirty sys0 (some "src.txt") (some "dst.txt")
    (some "dst.txt") 577 420 4 (by decide) (by decide)

/-- C6, as amended: after `copy_file` returns 1, a destination file that already
existed has the mode it had before the call, and a destination file the call created
has, in its low nine bits, the permission bits of the source without the bits set in
the file creation mask of the process. -/
theorem copy_file_success_mode (k : Kernel) (u : Locals) (s : Sys) (inp out : Option String)
    (h : (copy_file k u s inp out).2 = 1) :
    ∃ src dst, s.world.file inp = some src ∧
      (copy_file k u s inp out).1.world.file out = some dst ∧
      (∀ old, s.world.file out = some old → dst.mode = old.mode) ∧
      (s.world.file out = none → ∀ i, i < 9 →
        dst.mode.testBit i = (src.mode.testBit i && !s.world.umask.testBit i)) := by
  rcases copy_file_cases k u s inp out with
    ⟨_, hc⟩ | ⟨w1, fin, h1, ⟨_, hc⟩ | ⟨st, h2, ⟨_, hc⟩ | ⟨w3, fout, h3, ⟨_, hc⟩ |
      ⟨w4, bi, h4, ⟨_, hc⟩ | ⟨w5, n, h5, hc⟩⟩⟩⟩⟩
  · rw [hc] at h; simp at h
  · rw [hc, bail_ret] at h; simp at h
  · rw [hc, bail_ret] at h; simp at h
  · rw [hc, bail_ret] at h; simp at h
  · rw [hc, bail_ret] at h; simp at h
  · obtain ⟨i, src, q, j, d0, hsrc, hi, hst, hlen, hq, hnm, hd0, hdata, hoth, hfin, hfout, _,
      hold, hnew⟩ := opened_facts s.world w1 w3 inp out _ _ _ fin fout st h1 h2 h3
    have hsz : toSizeT st.st_size = src.data.length := by
      rw [hst]; exact toSizeT_natCast _ hlen
    rw [hsz] at h4 h5
    obtain ⟨hnames, _, d, hd, hdm, _, _⟩ :=
      written_facts w3 w4 w5 fin fout bi n i j src d0 _ _ hfin hfout hd0 hdata hoth h4 h5
    obtain ⟨wf, evs, hb, _, _, hbi, hbn, _⟩ := bail_events s w5 _ fin fout bi st _ _ hc
    refine ⟨src, d, hsrc, ?_, ?_, ?_⟩
    · rw [hb]
      simp only [World.file, hq]
      rw [hbn, hbi, hnames, hnm]
      exact hd
    · intro old ho
      rw [hdm]; exact hold old ho
    · intro hno b hb9
      rw [hdm, hnew hno]
      exact created_mode_bits src.mode s.world.umask b hb9

/-- A successful copy of `src.txt` onto the existing `old.txt`. -/
theorem copy_file_success_mode_witness :
    ∃ src dst, sys0.world.file (some "src.txt") = some src ∧
      (copy_file kernelOk localsDirty sys0 (some "src.txt") (some "old.txt")).1.world.file
        (some "old.txt") = some dst ∧
      (∀ old, sys0.world.file (some "old.txt") = some old → dst.mode = old.mode) ∧
      (sys0.world.file (some "old.txt") = none → ∀ i, i < 9 →
        dst.mode.testBit i = (src.mode.testBit i && !sys0.world.umask.testBit i)) :=
  copy_file_success_mode kernelOk localsDirty sys0 (some "src.txt") (some "old.txt")
    (by decide)

/-- C6, counterexample: `src.txt` has mode 0644 and the existing `old.txt` mode 0600;
`copy_file` returns 1 and `old.txt` holds the bytes of `src.txt`, but its permission
bits are still 0600, not the 0644 of the source. -/
theorem copy_file_success_mode_counterexample :
    (copy_file kernelOk localsClean sys0 (some "src.txt") (some "old.txt")).2 = 1 ∧
    sys0.world.file (some "src.txt") = some ⟨hello, 0o100644⟩ ∧
    (copy_file kernelOk localsClean sys0 (some "src.txt") (some "old.txt")).1.world.file
      (some "old.txt") = some ⟨hello, 0o100600⟩ ∧
    (0o100600 : Nat) &&& 0o777 ≠ 0o100644 &&& 0o777 := by
  decide

/-- C7, as amended: for a source file of length zero and a run in which the destination
open returns a descriptor, `copy_file` leaves a destination file of length zero; it
returns 1 exactly when the platform accepts the zero-length mapping request and
neither `mmap` nor `write` fails for another reason.  Where `mmap` rejects a length of
zero, as POSIX specifies, it returns 0. -/
theorem copy_file_empty_source (k : Kernel) (u : Locals) (s : Sys) (inp out : Option String)
    (src : Inode) (m : Nat) (fout : Int)
    (hsrc : s.world.file inp = some src) (hlen : src.data.length = 0)
    (he : ⟨Call.open out (O_WRONLY ||| O_CREAT ||| O_TRUNC) m, fout⟩ ∈
      newEvents s (copy_file k u s inp out).1)
    (hfout : fout ≠ -1) :
    (∃ dst, (copy_file k u s inp out).1.world.file out = some dst ∧ dst.data.length = 0) ∧
    ((copy_file k u s inp out).2 = 1 ↔
      s.world.mmapZeroLen = true ∧ k.mmap_page ≠ none ∧ k.write_max ≠ none) ∧
    (s.world.mmapZeroLen = false → (copy_file k u s inp out).2 = 0) := by
  have hfl : ¬ (O_WRONLY ||| O_CREAT ||| O_TRUNC = O_RDONLY) := by decide
  rcases copy_file_cases k u s inp out with
    ⟨_, hc⟩ | ⟨w1, fin, h1, ⟨_, hc⟩ | ⟨st, h2, ⟨_, hc⟩ | ⟨w3, fout', h3, hrest⟩⟩⟩
  · rw [hc, newEvents_append] at he
    simp only [List.mem_singleton, Event.mk.injEq, Call.open.injEq] at he
    exact absurd he.1.2.1 hfl
  · obtain ⟨wf, evs, _, hne, hev, _⟩ := bail_events s w1 _ fin u.fout u.bi u.st _ _ hc
    rw [hne] at he
    simp only [List.mem_append, List.mem_cons, List.mem_singleton, Event.mk.injEq,
      Call.open.injEq, List.not_mem_nil, or_false] at he
    rcases he with (he | he) | he
    · exact absurd he.1.2.1 hfl
    · simp at he
    · have := bail_calls_release evs _ _ _ _ hev _ he
      simp [isRelease] at this
  · obtain ⟨wf, evs, _, hne, hev, _⟩ := bail_events s w1 _ fin (-1) u.bi st _ _ hc
    rw [hne] at he
    simp only [List.mem_append, List.mem_cons, List.mem_singleton, Event.mk.injEq,
      Call.open.injEq, List.not_mem_nil, or_false] at he
    rcases he with (he | he | he) | he
    · exact absurd he.1.2.1 hfl
    · simp at he
    · exact absurd he.2 hfout
    · have := bail_calls_release evs _ _ _ _ hev _ he
      simp [isRelease] at this
  · obtain ⟨i, src', q, j, d0, hsrc', hi, hst, hlt, hq, hnm, hd0, hdata, hoth, hfin, hfo, hz,
      _, _⟩ := opened_facts s.world w1 w3 inp out _ _ _ fin fout' st h1 h2 h3
    rw [hsrc] at hsrc'
    have hss : src = src' := by simp at hsrc'; exact hsrc'
    subst hss
    have hsz : toSizeT st.st_size = 0 := by
      rw [hst, ← hlen]; exact toSizeT_natCast _ hlt
    have hst0 : st.st_size = 0 := by rw [hst]; simp [hlen]
    rcases hrest with ⟨h4, hc⟩ | ⟨w4, bi, h4, ⟨h5, hc⟩ | ⟨w5, n, h5, hc⟩⟩
    · obtain ⟨wf, evs, hb, _, _, hbi, hbn, _⟩ := bail_events s w3 _ fin fout' MAP_FAILED st _ _ hc
      rw [hsz] at h4
      have hcause := mmap_none w3 0 fin k.mmap_page _ hfin rfl h4
      rw [hb]
      refine ⟨⟨d0, ?_, by rw [hdata]; rfl⟩, ⟨fun h => by simp at h, ?_⟩, fun _ => rfl⟩
      · simp only [World.file, hq]
        rw [hbn, hbi, hnm]; exact hd0
      · rintro ⟨hzero, hpage, _⟩
        rcases hcause with ⟨_, hcz⟩ | hcp
        · rw [hz, hzero] at hcz; simp at hcz
        · exact absurd hcp hpage
    · obtain ⟨wf, evs, hb, _, _, hbi, hbn, _⟩ := bail_events s w4 _ fin fout' bi st _ _ hc
      rw [hsz] at h4 h5
      obtain ⟨f, hf, _, _, hw4⟩ := mmap_some w3 w4 0 fin k.mmap_page bi h4
      have hfo4 : w4.fd? fout' = some ⟨j, 0, false, true⟩ := by rw [hw4]; exact hfo
      have hd4 : w4.inodes[j]? = some d0 := by rw [hw4]; exact hd0
      have hmax := write_none_zero w4 fout' bi k.write_max _ d0 hfo4 rfl hd4 h5
      rw [hb]
      refine ⟨⟨d0, ?_, by rw [hdata]; rfl⟩, ⟨fun h => by simp at h, ?_⟩, fun _ => rfl⟩
      · simp only [World.file, hq]
        rw [hbn, hbi, hw4]
        simp only
        rw [hnm]; exact hd0
      · rintro ⟨_, _, hmx⟩
        exact absurd hmax hmx
    · obtain ⟨wf, evs, hb, _, _, hbi, hbn, _⟩ := bail_events s w5 _ fin fout' bi st _ _ hc
      rw [hsz, ← hlen] at h4 h5
      obtain ⟨hnames, hnle, d, hd, _, hdl, _⟩ :=
        written_facts w3 w4 w5 fin fout' bi n i j src d0 _ _ hfin hfo hd0 hdata hoth h4 h5
      have hn0 : n = 0 := by omega
      obtain ⟨f, _, _, hzl, _⟩ := mmap_some w3 w4 _ fin k.mmap_page bi h4
      have hpage := mmap_some_page w3 w4 _ fin k.mmap_page bi h4
      obtain ⟨kk, _, _, hmax, _⟩ := write_some w4 w5 fout' bi _ k.write_max n h5
      have hzero : s.world.mmapZeroLen = true := by
        rcases hzl with hne | hzt
        · exact absurd hlen hne
        · rw [← hz]; exact hzt
      have hret : (if (n : Int) = st.st_size then (1 : Int) else 0) = 1 := by
        rw [hst0, hn0]; simp
      rw [hb, hret]
      refine ⟨⟨d, ?_, by rw [hdl, hn0]⟩, ⟨fun _ => ⟨hzero, hpage, by rw [hmax]; simp⟩,
        fun _ => rfl⟩, fun hf => ?_⟩
      · simp only [World.file, hq]
        rw [hbn, hbi, hnames, hnm]; exact hd
      · rw [hzero] at hf; simp at hf

/-- The empty file `empty.txt` copied to the new path `dst.txt` under POSIX `mmap`. -/
theorem copy_file_empty_source_witness :
    (∃ dst, (copy_file kernelOk localsDirty sys0 (some "empty.txt") (some "dst.txt")).1.world.file
      (some "dst.txt") = some dst ∧ dst.data.length = 0) ∧
    ((copy_file kernelOk localsDirty sys0 (some "empty.txt") (some "dst.txt")).2 = 1 ↔
      sys0.world.mmapZeroLen = true ∧ kernelOk.mmap_page ≠ none ∧ kernelOk.write_max ≠ none) ∧
    (sys0.world.mmapZeroLen = false →
      (copy_file kernelOk localsDirty sys0 (some "empty.txt") (some "dst.txt")).2 = 0) :=
  copy_file_empty_source kernelOk localsDirty sys0 (some "empty.txt") (some "dst.txt")
    ⟨[], 0o100644⟩ 420 4 (by decide) (by decide) (by decide) (by decide)

/-- C7, counterexample: `empty.txt` is a readable file of length zero and `dst.txt`
can be created, both opens return a descriptor, yet `mmap` of length 0 returns
`MAP_FAILED` and `copy_file` returns 0. -/
theorem copy_file_empty_source_counterexample :
    sys0.world.file (some "empty.txt") = some ⟨[], 0o100644⟩ ∧
    copy_file kernelOk localsClean sys0 (some "empty.txt") (some "dst.txt") =
      (⟨{ world0 with
            inodes := world0.inodes ++ [⟨[], 0o100644⟩],
            names := ("dst.txt", 4) :: world0.names,
            fds := world0.fds ++ [none, none] },
        [⟨Call.open (some "empty.txt") O_RDONLY 0, 3⟩, ⟨Call.fstat 3, 0⟩,
         ⟨Call.open (some "dst.txt") (O_WRONLY ||| O_CREAT ||| O_TRUNC) 0o644, 4⟩,
         ⟨Call.mmap 0 0 PROT_READ MAP_PRIVATE 3 0, MAP_FAILED⟩,
         ⟨Call.close 3, 0⟩, ⟨Call.close 4, 0⟩]⟩, 0) := by
  decide

/-- C8: in a run in which the create/truncate open of the destination returns -1,
`copy_file` returns 0, the files and the names are those from before the call (so the
source keeps its content, length and mode), and the source descriptor, which the run
obtained from its first `open`, is closed again by a `close` of the run. -/
theorem copy_file_dest_create_fails (k : Kernel) (u : Locals) (s : Sys)
    (inp out : Option String) (m : Nat)
    (he : ⟨Call.open out (O_WRONLY ||| O_CREAT ||| O_TRUNC) m, -1⟩ ∈
      newEvents s (copy_file k u s inp out).1) :
    (copy_file k u s inp out).2 = 0 ∧
    (copy_file k u s inp out).1.world.inodes = s.world.inodes ∧
    (copy_file k u s inp out).1.world.names = s.world.names ∧
    (copy_file k u s inp out).1.world.file inp = s.world.file inp ∧
    ∃ fin : Int, fin ≠ -1 ∧
      ⟨Call.open inp O_RDONLY 0, fin⟩ ∈ newEvents s (copy_file k u s inp out).1 ∧
      Call.close fin ∈ (newEvents s (copy_file k u s inp out).1).map Event.call ∧
      (copy_file k u s inp out).1.world.fd? fin = none := by
  have hfl : ¬ (O_WRONLY ||| O_CREAT ||| O_TRUNC = O_RDONLY) := by decide
  rcases copy_file_cases k u s inp out with
    ⟨_, hc⟩ | ⟨w1, fin, h1, ⟨_, hc⟩ | ⟨st, h2, ⟨_, hc⟩ | ⟨w3, fout, h3, ⟨_, hc⟩ |
      ⟨w4, bi, h4, ⟨_, hc⟩ | ⟨w5, n, h5, hc⟩⟩⟩⟩⟩
  · rw [hc, newEvents_append] at he
    simp only [List.mem_singleton, Event.mk.injEq, Call.open.injEq] at he
    exact absurd he.1.2.1 hfl
  · obtain ⟨wf, evs, _, hne, hev, _⟩ := bail_events s w1 _ fin u.fout u.bi u.st _ _ hc
    rw [hne] at he
    simp only [List.mem_append, List.mem_cons, List.mem_singleton, Event.mk.injEq,
      Call.open.injEq, List.not_mem_nil, or_false] at he
    rcases he with (he | he) | he
    · exact absurd he.1.2.1 hfl
    · simp at he
    · have := bail_calls_release evs _ _ _ _ hev _ he
      simp [isRelease] at this
  · obtain ⟨wf, evs, hb, hne, hev, hbi, hbn, hbf⟩ :=
      bail_events s w1 _ fin (-1) u.bi st _ _ hc
    obtain ⟨i, src, _, _, _, _, hi1, hn1, _⟩ := stat_facts s.world w1 inp _ _ fin st h1 h2
    have hfin := natCast_ne_neg_one fin
    rw [hne]
    rw [hb]
    refine ⟨rfl, by rw [hbi, hi1], by rw [hbn, hn1], ?_, fin, hfin, by simp, ?_, hbf hfin⟩
    · simp only [World.file]
      rw [hbi, hbn, hi1, hn1]
    · rw [List.map_append, hev, if_pos hfin]
      simp
  · obtain ⟨wf, evs, _, hne, hev, _⟩ := bail_events s w3 _ fin fout MAP_FAILED st _ _ hc
    rw [hne] at he
    simp only [List.mem_append, List.mem_cons, List.mem_singleton, Event.mk.injEq,
      Call.open.injEq, List.not_mem_nil, or_false] at he
    rcases he with (he | he | he | he) | he
    · exact absurd he.1.2.1 hfl
    · simp at he
    · exact absurd he.2.symm (natCast_ne_neg_one fout)
    · simp at he
    · have := bail_calls_release evs _ _ _ _ hev _ he
      simp [isRelease] at this
  · obtain ⟨wf, evs, _, hne, hev, _⟩ := bail_events s w4 _ fin fout bi st _ _ hc
    rw [hne] at he
    simp only [List.mem_append, List.mem_cons, List.mem_singleton, Event.mk.injEq,
      Call.open.injEq, List.not_mem_nil, or_false] at he
    rcases he with (he | he | he | he | he) | he
    · exact absurd he.1.2.1 hfl
    · simp at he
    · exact absurd he.2.symm (natCast_ne_neg_one fout)
    · simp at he
    · simp at he
    · have := bail_calls_release evs _ _ _ _ hev _ he
      simp [isRelease] at this
  · obtain ⟨wf, evs, _, hne, hev, _⟩ := bail_events s w5 _ fin fout bi st _ _ hc
    rw [hne] at he
    simp only [List.mem_append, List.mem_cons, List.mem_singleton, Event.mk.injEq,
      Call.open.injEq, List.not_mem_nil, or_false] at he
    rcases he with (he | he | he | he | he) | he
    · exact absurd he.1.2.1 hfl
    · simp at he
    · exact absurd he.2.symm (natCast_ne_neg_one fout)
    · simp at he
    · simp at he
    · have := bail_calls_release evs _ _ _ _ hev _ he
      simp [isRelease] at this

/-- Creating `dst.txt` is refused while `src.txt` is open as descriptor 3. -/
theorem copy_file_dest_create_fails_witness :
    (copy_file kernelNoCreate localsDirty sys0 (some "src.txt") (some "dst.txt")).2 = 0 ∧
    (copy_file kernelNoCreate localsDirty sys0 (some "src.txt") (some "dst.txt")).1.world.inodes
      = sys0.world.inodes ∧
    (copy_file kernelNoCreate localsDirty sys0 (some "src.txt") (some "dst.txt")).1.world.names
      = sys0.world.names ∧
    (copy_file kernelNoCreate localsDirty sys0 (some "src.txt") (some "dst.txt")).1.world.file
      (some "src.txt") = sys0.world.file (some "src.txt") ∧
    ∃ fin : Int, fin ≠ -1 ∧
      ⟨Call.open (some "src.txt") O_RDONLY 0, fin⟩ ∈ newEvents sys0
        (copy_file kernelNoCreate localsDirty sys0 (some "src.txt") (some "dst.txt")).1 ∧
      Call.close fin ∈ (newEvents sys0
        (copy_file kernelNoCreate localsDirty sys0 (some "src.txt") (some "dst.txt")).1).map
          Event.call ∧
      (copy_file kernelNoCreate localsDirty sys0 (some "src.txt") (some "dst.txt")).1.world.fd?
        fin = none :=
  copy_file_dest_create_fails kernelNoCreate localsDirty sys0 (some "src.txt") (some "dst.txt")
    420 (by decide)

/-- C9: `main` returns what `copy_file(argv[1], argv[2])` returns, run in the same
world after at most the usage message; that value is 0 or 1, so it is the exit status
unchanged.  The usage message is printed exactly when `argc < 3`, and in every case
the run goes on to the `open` of `argv[1]`. -/
theorem main_exit_status (k : Kernel) (u : Locals) (s : Sys) (argc : Int)
    (argv : Nat → Option String) :
    main k u s argc argv =
      copy_file k u ⟨s.world, s.trace ++ (if argc < 3 then [⟨Call.puts usage, 1⟩] else [])⟩
        (argv 1) (argv 2) ∧
    exit_status (main k u s argc argv).2 =
      (copy_file k u ⟨s.world, s.trace ++ (if argc < 3 then [⟨Call.puts usage, 1⟩] else [])⟩
        (argv 1) (argv 2)).2 ∧
    ((main k u s argc argv).2 = 0 ∨ (main k u s argc argv).2 = 1) ∧
    ((∃ str r, ⟨Call.puts str, r⟩ ∈ newEvents s (main k u s argc argv).1) ↔ argc < 3) ∧
    (argc < 3 → ∃ rest, newEvents s (main k u s argc argv).1 = ⟨Call.puts usage, 1⟩ :: rest) ∧
    ∃ fin, ⟨Call.open (argv 1) O_RDONLY 0, fin⟩ ∈ newEvents s (main k u s argc argv).1 := by
  have hmain : main k u s argc argv =
      copy_file k u ⟨s.world, s.trace ++ (if argc < 3 then [⟨Call.puts usage, 1⟩] else [])⟩
        (argv 1) (argv 2) := by
    unfold main puts Sys.step
    by_cases h : argc < 3
    · simp only [if_pos h]
    · simp only [if_neg h, List.append_nil]
  have h01 := copy_file_ret_zero_or_one k u
    ⟨s.world, s.trace ++ (if argc < 3 then [⟨Call.puts usage, 1⟩] else [])⟩ (argv 1) (argv 2)
  obtain ⟨fin, rest, _, htr, hnp, _⟩ := copy_file_shape k u
    ⟨s.world, s.trace ++ (if argc < 3 then [⟨Call.puts usage, 1⟩] else [])⟩ (argv 1) (argv 2)
  have hev : newEvents s (main k u s argc argv).1 =
      (if argc < 3 then [⟨Call.puts usage, 1⟩] else []) ++
        ⟨Call.open (argv 1) O_RDONLY 0, fin⟩ :: rest := by
    rw [hmain]
    unfold newEvents
    rw [htr]
    simp [List.append_assoc]
  refine ⟨hmain, ?_, ?_, ?_, ?_, ?_⟩
  · rw [hmain]
    unfold exit_status
    rcases h01 with h0 | h1
    · rw [h0]; rfl
    · rw [h1]; rfl
  · rw [hmain]; exact h01
  · rw [hev]
    by_cases h : argc < 3
    · rw [if_pos h]
      exact ⟨fun _ => h, fun _ => ⟨usage, 1, by simp⟩⟩
    · rw [if_neg h]
      refine ⟨?_, fun h3 => absurd h3 h⟩
      rintro ⟨str, r, hm⟩
      simp only [List.nil_append, List.mem_cons, Event.mk.injEq] at hm
      rcases hm with hm | hm
      · simp at hm
      · exact absurd rfl (hnp _ hm str)
  · intro h
    rw [hev, if_pos h]
    exact ⟨_, rfl⟩
  · refine ⟨fin, ?_⟩
    rw [hev]
    simp

/-- C10, as amended: in every run past the source open, the first release call is the
`close` of the source descriptor.  When the destination open returned a descriptor,
`mmap` is called and the release calls are exactly: `close` of the source descriptor,
`close` of the destination descriptor, and then, when `mmap` did not fail, `munmap` of
the mapped region. -/
theorem copy_file_release_order (k : Kernel) (u : Locals) (s : Sys) (inp out : Option String)
    (fin : Int) (hfin : fin ≠ -1)
    (he : ⟨Call.open inp O_RDONLY 0, fin⟩ ∈ newEvents s (copy_file k u s inp out).1) :
    (∃ rest, releases (newEvents s (copy_file k u s inp out).1) = Call.close fin :: rest) ∧
    (∀ (m : Nat) (fout : Int), fout ≠ -1 →
      ⟨Call.open out (O_WRONLY ||| O_CREAT ||| O_TRUNC) m, fout⟩ ∈
        newEvents s (copy_file k u s inp out).1 →
      ∃ (len : Nat) (bi : Int),
        ⟨Call.mmap 0 len PROT_READ MAP_PRIVATE fin 0, bi⟩ ∈
          newEvents s (copy_file k u s inp out).1 ∧
        releases (newEvents s (copy_file k u s inp out).1) =
          [Call.close fin, Call.close fout] ++
            (if bi ≠ MAP_FAILED then [Call.munmap bi len] else [])) := by
  have hfl : ¬ (O_RDONLY = O_WRONLY ||| O_CREAT ||| O_TRUNC) := by decide
  have hfl2 : ¬ (O_WRONLY ||| O_CREAT ||| O_TRUNC = O_RDONLY) := by decide
  rcases copy_file_cases k u s inp out with
    ⟨_, hc⟩ | ⟨w1, fin0, h1, ⟨_, hc⟩ | ⟨st, h2, ⟨_, hc⟩ | ⟨w3, fout0, h3, ⟨_, hc⟩ |
      ⟨w4, bi0, h4, ⟨_, hc⟩ | ⟨w5, n, h5, hc⟩⟩⟩⟩⟩
  · rw [hc, newEvents_append] at he
    simp only [List.mem_singleton, Event.mk.injEq] at he
    exact absurd he.2 hfin
  · obtain ⟨wf, evs, _, hne, hev, _⟩ := bail_events s w1 _ fin0 u.fout u.bi u.st _ _ hc
    have hf0 := natCast_ne_neg_one fin0
    rw [hne] at he ⊢
    simp only [List.mem_append, List.mem_cons, List.mem_singleton, Event.mk.injEq,
      Call.open.injEq, List.not_mem_nil, or_false] at he
    have hrel := releases_bail
      [⟨Call.open inp O_RDONLY 0, fin0⟩, ⟨Call.fstat fin0, -1⟩]
      evs _ _ _ _ rfl hev
    rw [hrel, if_pos hf0]
    have hfe : fin = fin0 := by
      rcases he with (he | he) | he
      · exact he.2
      · simp at he
      · have := bail_calls_release evs _ _ _ _ hev _ he
        simp [isRelease] at this
    subst hfe
    refine ⟨⟨_, rfl⟩, ?_⟩
    intro m fout hfo hm
    exfalso
    simp only [List.mem_append, List.mem_cons, List.mem_singleton, Event.mk.injEq,
      Call.open.injEq, List.not_mem_nil, or_false] at hm
    rcases hm with (hm | hm) | hm
    · exact hfl2 hm.1.2.1
    · simp at hm
    · have := bail_calls_release evs _ _ _ _ hev _ hm
      simp [isRelease] at this
  · obtain ⟨wf, evs, _, hne, hev, _⟩ := bail_events s w1 _ fin0 (-1) u.bi st _ _ hc
    have hf0 := natCast_ne_neg_one fin0
    rw [hne] at he ⊢
    simp only [List.mem_append, List.mem_cons, List.mem_singleton, Event.mk.injEq,
      Call.open.injEq, List.not_mem_nil, or_false] at he
    have hrel := releases_bail
      [⟨Call.open inp O_RDONLY 0, fin0⟩, ⟨Call.fstat fin0, 0⟩,
      ⟨Call.open out (O_WRONLY ||| O_CREAT ||| O_TRUNC) (st.st_mode &&& 0o777), -1⟩]
      evs _ _ _ _ rfl hev
    rw [hrel, if_pos hf0]
    have hfe : fin = fin0 := by
      rcases he with (he | he | he) | he
      · exact he.2
      · simp at he
      · exact absurd he.1.2.1 hfl
      · have := bail_calls_release evs _ _ _ _ hev _ he
        simp [isRelease] at this
    subst hfe
    refine ⟨⟨_, rfl⟩, ?_⟩
    intro m fout hfo hm
    exfalso
    simp only [List.mem_append, List.mem_cons, List.mem_singleton, Event.mk.injEq,
      Call.open.injEq, List.not_mem_nil, or_false] at hm
    rcases hm with (hm | hm | hm) | hm
    · exact hfl2 hm.1.2.1
    · simp at hm
    · exact hfo hm.2
    · have := bail_calls_release evs _ _ _ _ hev _ hm
      simp [isRelease] at this
  · obtain ⟨wf, evs, _, hne, hev, _⟩ := bail_events s w3 _ fin0 fout0 MAP_FAILED st _ _ hc
    have hf0 := natCast_ne_neg_one fin0
    have hfo0 := natCast_ne_neg_one fout0
    rw [hne] at he ⊢
    simp only [List.mem_append, List.mem_cons, List.mem_singleton, Event.mk.injEq,
      Call.open.injEq, List.not_mem_nil, or_false] at he
    have hrel := releases_bail
      [⟨Call.open inp O_RDONLY 0, fin0⟩, ⟨Call.fstat fin0, 0⟩,
      ⟨Call.open out (O_WRONLY ||| O_CREAT ||| O_TRUNC) (st.st_mode &&& 0o777), fout0⟩,
      ⟨Call.mmap 0 (toSizeT st.st_size) PROT_READ MAP_PRIVATE fin0 0, MAP_FAILED⟩]
      evs _ _ _ _ rfl hev
    rw [hrel, if_pos hf0, if_pos hfo0]
    have hfe : fin = fin0 := by
      rcases he with (he | he | he | he) | he
      · exact he.2
      · simp at he
      · exact absurd he.1.2.1 hfl
      · simp at he
      · have := bail_calls_release evs _ _ _ _ hev _ he
        simp [isRelease] at this
    subst hfe
    refine ⟨⟨_, rfl⟩, ?_⟩
    intro m fout hfo hm
    simp only [List.mem_append, List.mem_cons, List.mem_singleton, Event.mk.injEq,
      Call.open.injEq, List.not_mem_nil, or_false] at hm
    have hfoe : fout = fout0 := by
      rcases hm with (hm | hm | hm | hm) | hm
      · exact absurd hm.1.2.1 hfl2
      · simp at hm
      · exact hm.2
      · simp at hm
      · have := bail_calls_release evs _ _ _ _ hev _ hm
        simp [isRelease] at this
    subst hfoe
    refine ⟨toSizeT st.st_size, MAP_FAILED, by simp, ?_⟩
    simp
  · obtain ⟨wf, evs, _, hne, hev, _⟩ := bail_events s w4 _ fin0 fout0 bi0 st _ _ hc
    have hf0 := natCast_ne_neg_one fin0
    have hfo0 := natCast_ne_neg_one fout0
    have hb0 : (bi0 : Int) ≠ MAP_FAILED := natCast_ne_neg_one bi0
    rw [hne] at he ⊢
    simp only [List.mem_append, List.mem_cons, List.mem_singleton, Event.mk.injEq,
      Call.open.injEq, List.not_mem_nil, or_false] at he
    have hrel := releases_bail
      [⟨Call.open inp O_RDONLY 0, fin0⟩, ⟨Call.fstat fin0, 0⟩,
      ⟨Call.open out (O_WRONLY ||| O_CREAT ||| O_TRUNC) (st.st_mode &&& 0o777), fout0⟩,
      ⟨Call.mmap 0 (toSizeT st.st_size) PROT_READ MAP_PRIVATE fin0 0, bi0⟩,
      ⟨Call.write fout0 bi0 (toSizeT st.st_size), -1⟩]
      evs _ _ _ _ rfl hev
    rw [hrel, if_pos hf0, if_pos hfo0, if_pos hb0]
    have hfe : fin = fin0 := by
      rcases he with (he | he | he | he | he) | he
      · exact he.2
      · simp at he
      · exact absurd he.1.2.1 hfl
      · simp at he
      · simp at he
      · have := bail_calls_release evs _ _ _ _ hev _ he
        simp [isRelease] at this
    subst hfe
    refine ⟨⟨_, rfl⟩, ?_⟩
    intro m fout hfo hm
    simp only [List.mem_append, List.mem_cons, List.mem_singleton, Event.mk.injEq,
      Call.open.injEq, List.not_mem_nil, or_false] at hm
    have hfoe : fout = fout0 := by
      rcases hm with (hm | hm | hm | hm | hm) | hm
      · exact absurd hm.1.2.1 hfl2
      · simp at hm
      · exact hm.2
      · simp at hm
      · simp at hm
      · have := bail_calls_release evs _ _ _ _ hev _ hm
        simp [isRelease] at this
    subst hfoe
    refine ⟨toSizeT st.st_size, bi0, by simp, ?_⟩
    rw [if_pos hb0]
    rfl
  · obtain ⟨wf, evs, _, hne, hev, _⟩ := bail_events s w5 _ fin0 fout0 bi0 st _ _ hc
    have hf0 := natCast_ne_neg_one fin0
    have hfo0 := natCast_ne_neg_one fout0
    have hb0 : (bi0 : Int) ≠ MAP_FAILED := natCast_ne_neg_one bi0
    rw [hne] at he ⊢
    simp only [List.mem_append, List.mem_cons, List.mem_singleton, Event.mk.injEq,
      Call.open.injEq, List.not_mem_nil, or_false] at he
    have hrel := releases_bail
      [⟨Call.open inp O_RDONLY 0, fin0⟩, ⟨Call.fstat fin0, 0⟩,
      ⟨Call.open out (O_WRONLY ||| O_CREAT ||| O_TRUNC) (st.st_mode &&& 0o777), fout0⟩,
      ⟨Call.mmap 0 (toSizeT st.st_size) PROT_READ MAP_PRIVATE fin0 0, bi0⟩,
      ⟨Call.write fout0 bi0 (toSizeT st.st_size), n⟩]
      evs _ _ _ _ rfl hev
    rw [hrel, if_pos hf0, if_pos hfo0, if_pos hb0]
    have hfe : fin = fin0 := by
      rcases he with (he | he | he | he | he) | he
      · exact he.2
      · simp at he
      · exact absurd he.1.2.1 hfl
      · simp at he
      · simp at he
      · have := bail_calls_release evs _ _ _ _ hev _ he
        simp [isRelease] at this
    subst hfe
    refine ⟨⟨_, rfl⟩, ?_⟩
    intro m fout hfo hm
    simp only [List.mem_append, List.mem_cons, List.mem_singleton, Event.mk.injEq,
      Call.open.injEq, List.not_mem_nil, or_false] at hm
    have hfoe : fout = fout0 := by
      rcases hm with (hm | hm | hm | hm | hm) | hm
      · exact absurd hm.1.2.1 hfl2
      · simp at hm
      · exact hm.2
      · simp at hm
      · simp at hm
      · have := bail_calls_release evs _ _ _ _ hev _ hm
        simp [isRelease] at this
    subst hfoe
    refine ⟨toSizeT st.st_size, bi0, by simp, ?_⟩
    rw [if_pos hb0]
    rfl

/-- The release calls of the successful copy of `src.txt` to `dst.txt`. -/
theorem copy_file_release_order_witness :
    (∃ rest, releases (newEvents sys0
        (copy_file kernelOk localsDirty sys0 (some "src.txt") (some "dst.txt")).1)
      = Call.close 3 :: rest) ∧
    (∀ (m : Nat) (fout : Int), fout ≠ -1 →
      ⟨Call.open (some "dst.txt") (O_WRONLY ||| O_CREAT ||| O_TRUNC) m, fout⟩ ∈ newEvents sys0
        (copy_file kernelOk localsDirty sys0 (some "src.txt") (some "dst.txt")).1 →
      ∃ (len : Nat) (bi : Int),
        ⟨Call.mmap 0 len PROT_READ MAP_PRIVATE 3 0, bi⟩ ∈ newEvents sys0
          (copy_file kernelOk localsDirty sys0 (some "src.txt") (some "dst.txt")).1 ∧
        releases (newEvents sys0
            (copy_file kernelOk localsDirty sys0 (some "src.txt") (some "dst.txt")).1) =
          [Call.close 3, Call.close fout] ++
            (if bi ≠ MAP_FAILED then [Call.munmap bi len] else [])) :=
  copy_file_release_order kernelOk localsDirty sys0 (some "src.txt") (some "dst.txt") 3
    (by decide) (by decide)

/-- C10, counterexample: in the successful copy of `src.txt` to `dst.txt` the release
calls are `close(3)` (source), `close(4)` (destination), `munmap`, in this order, and
not `munmap`, `close(4)`, `close(3)`. -/
theorem copy_file_release_order_counterexample :
    releases (newEvents sys0
      (copy_file kernelOk localsClean sys0 (some "src.txt") (some "dst.txt")).1) =
      [Call.close 3, Call.close 4, Call.munmap 32768 11] ∧
    releases (newEvents sys0
      (copy_file kernelOk localsClean sys0 (some "src.txt") (some "dst.txt")).1) ≠
      [Call.munmap 32768 11, Call.close 4, Call.close 3] := by
  decide

end Fcopy
